import Mathlib

/-!
# video-wla: the offline media store (`src/js/db.js`) and its callers in `src/js/app.js`

The two IndexedDB object stores `media` and `playlists` are embedded as lists of
records.  Both stores are created with `keyPath: 'id'`, so a store holds at most
one record per identifier and `getAll()` yields the records in ascending key
order.  That representation invariant is `Store.WF`; the identifiers themselves
are kept abstract (any linearly ordered type), since nothing in the program
looks inside an identifier.

Every `async` function is run to completion before the next one starts (the
callers `await` each call), so an operation is a function from the database
state to a result and a new state.  A rejected promise is `Except.error`.
Storage faults (`tx.onerror`) are outside the model: a transaction commits.
-/

namespace VideoWla

/-! ## Records -/

/-- The object handed to `addMedia`: a browser `File` with its name, its declared
media type and its bytes. -/
structure File where
  name : String
  type : String
  payload : List Nat
  deriving DecidableEq, Repr

/-- The two values of a media record's `type` field, `'video'` and `'audio'`. -/
inductive MediaType where
  | video
  | audio
  deriving DecidableEq, Repr

/-- A record of the `media` store; `blob` is `none` where the script writes
`blob: undefined`. -/
structure MediaItem (Id : Type) where
  id : Id
  name : String
  blob : Option File
  type : MediaType
  mimeType : String
  createdAt : Nat
  deriving DecidableEq, Repr

/-- A row of `getAllMedia`: the five copied fields, without the blob. -/
structure MediaRow (Id : Type) where
  id : Id
  name : String
  type : MediaType
  mimeType : String
  createdAt : Nat
  deriving DecidableEq, Repr

/-- A record of the `playlists` store. -/
structure Playlist (Id : Type) where
  id : Id
  name : String
  mediaIds : List Id
  createdAt : Nat
  deriving DecidableEq, Repr

/-- The `updates` argument of `updatePlaylist`: an object holding any subset of a
playlist's fields. -/
structure PlaylistUpdates (Id : Type) where
  id : Option Id := none
  name : Option String := none
  mediaIds : Option (List Id) := none
  createdAt : Option Nat := none
  deriving DecidableEq, Repr

/-- The database: the `media` and the `playlists` object store. -/
structure DB (Id : Type) where
  media : List (MediaItem Id)
  playlists : List (Playlist Id)
  deriving DecidableEq, Repr

/-! ## Object stores -/

namespace Store

variable {Id : Type} [LinearOrder Id] {α : Type}

/-- The representation invariant of an object store with key path `key`: records
in strictly ascending key order, hence one record per key. -/
def WF (key : α → Id) (s : List α) : Prop :=
  s.Pairwise (fun a b => key a < key b)

instance (key : α → Id) (s : List α) : Decidable (WF key s) := by
  unfold WF; infer_instance

/-- `objectStore.put(record)`: insert at the key's position, replacing the record
that has the same key. -/
def put (key : α → Id) (r : α) : List α → List α
  | [] => [r]
  | x :: xs =>
    if key r < key x then r :: x :: xs
    else if key r = key x then r :: xs
    else x :: put key r xs

/-- `objectStore.get(id)`, with `request.result || null` read as an option. -/
def get (key : α → Id) (id : Id) (s : List α) : Option α :=
  s.find? (fun x => decide (key x = id))

/-- `objectStore.delete(id)`: drop what is stored under the key. -/
def delete (key : α → Id) (id : Id) (s : List α) : List α :=
  s.filter (fun x => !decide (key x = id))

end Store

/-- The well-formed databases: both object stores satisfy `Store.WF`. -/
def DB.WF {Id : Type} [LinearOrder Id] (db : DB Id) : Prop :=
  Store.WF MediaItem.id db.media ∧ Store.WF Playlist.id db.playlists

instance {Id : Type} [LinearOrder Id] (db : DB Id) : Decidable db.WF := by
  unfold DB.WF; infer_instance

/-! ## Strings -/

/-- The code points `String.prototype.trim` strips: ECMAScript WhiteSpace and
LineTerminator. -/
def isJsWhiteSpace (c : Char) : Bool :=
  let n := c.toNat
  n = 0x09 || n = 0x0A || n = 0x0B || n = 0x0C || n = 0x0D || n = 0x20 || n = 0xA0
    || n = 0x1680 || (0x2000 ≤ n && n ≤ 0x200A) || n = 0x2028 || n = 0x2029
    || n = 0x202F || n = 0x205F || n = 0x3000 || n = 0xFEFF

/-- `s.trim()`. -/
def jsTrim (s : String) : String :=
  String.mk (((s.data.dropWhile isJsWhiteSpace).reverse.dropWhile isJsWhiteSpace).reverse)

/-- Whether `/\.[^/.]+$/` matches with the match starting at the head of the
input: a dot, then one or more characters other than `/` and `.`, up to the end. -/
def extMatchesAt : List Char → Bool
  | [] => false
  | c :: rest => c = '.' && !rest.isEmpty && rest.all (fun d => d ≠ '/' && d ≠ '.')

/-- `name.replace(/\.[^/.]+$/, '')` on the characters of the name: the leftmost
match is cut out, and since the match runs to the end nothing follows it. -/
def replaceExt : List Char → List Char
  | [] => []
  | c :: cs => if extMatchesAt (c :: cs) then [] else c :: replaceExt cs

/-- The `name` expression of `addMedia`:
`file.name.replace(/\.[^/.]+$/, '') || file.name`. -/
def deriveName (fileName : String) : String :=
  let stripped := String.mk (replaceExt fileName.data)
  if stripped = "" then fileName else stripped

/-- `haystack.includes(needle)` on character lists. -/
def includes : List Char → List Char → Bool
  | [], needle => needle.isEmpty
  | c :: cs, needle => needle.isPrefixOf (c :: cs) || includes cs needle

/-! ## `db.js` -/

section Ops

variable {Id : Type} [LinearOrder Id]

/-- `addMedia(file)`.  `newId` is what `generateId()` returned and `now` the value
of `Date.now()`.  The stored record keeps the file; the resolved value is the
record with `blob: undefined`. -/
def addMedia (newId : Id) (now : Nat) (file : File) (db : DB Id) : MediaItem Id × DB Id :=
  let isVideo := "video/".data.isPrefixOf file.type.data
  let item : MediaItem Id :=
    { id := newId
      name := deriveName file.name
      blob := some file
      type := if isVideo then MediaType.video else MediaType.audio
      mimeType := file.type
      createdAt := now }
  ({ item with blob := none }, { db with media := Store.put MediaItem.id item db.media })

/-- `getAllMedia()`. -/
def getAllMedia (db : DB Id) : List (MediaRow Id) :=
  db.media.map (fun m =>
    { id := m.id, name := m.name, type := m.type, mimeType := m.mimeType,
      createdAt := m.createdAt })

/-- `getMediaById(id)`. -/
def getMediaById (id : Id) (db : DB Id) : Option (MediaItem Id) :=
  Store.get MediaItem.id id db.media

/-- `deleteMedia(id)`. -/
def deleteMedia (id : Id) (db : DB Id) : DB Id :=
  { db with media := Store.delete MediaItem.id id db.media }

/-- `createPlaylist(name)`, with `newId` from `generateId()` and `now` from
`Date.now()`. -/
def createPlaylist (newId : Id) (now : Nat) (name : String) (db : DB Id) :
    Playlist Id × DB Id :=
  let playlist : Playlist Id :=
    { id := newId
      name := if jsTrim name = "" then "Untitled Playlist" else jsTrim name
      mediaIds := []
      createdAt := now }
  (playlist, { db with playlists := Store.put Playlist.id playlist db.playlists })

/-- `getAllPlaylists()`. -/
def getAllPlaylists (db : DB Id) : List (Playlist Id) :=
  db.playlists

/-- `getPlaylistById(id)`. -/
def getPlaylistById (id : Id) (db : DB Id) : Option (Playlist Id) :=
  Store.get Playlist.id id db.playlists

/-- The object spread `{ ...playlist, ...updates }`. -/
def applyUpdates (p : Playlist Id) (u : PlaylistUpdates Id) : Playlist Id :=
  { id := u.id.getD p.id
    name := u.name.getD p.name
    mediaIds := u.mediaIds.getD p.mediaIds
    createdAt := u.createdAt.getD p.createdAt }

/-- `updatePlaylist(id, updates)`. -/
def updatePlaylist (id : Id) (updates : PlaylistUpdates Id) (db : DB Id) :
    Except String (Playlist Id × DB Id) :=
  match getPlaylistById id db with
  | none => .error "Playlist not found"
  | some playlist =>
    let updated := applyUpdates playlist updates
    .ok (updated, { db with playlists := Store.put Playlist.id updated db.playlists })

/-- `addMediaToPlaylist(playlistId, mediaId)`; a bare `return` is `none`. -/
def addMediaToPlaylist (playlistId mediaId : Id) (db : DB Id) :
    Except String (Option (Playlist Id) × DB Id) :=
  match getPlaylistById playlistId db with
  | none => .ok (none, db)
  | some playlist =>
    if playlist.mediaIds.contains mediaId then .ok (some playlist, db)
    else
      match updatePlaylist playlistId { mediaIds := some (playlist.mediaIds ++ [mediaId]) } db with
      | .error e => .error e
      | .ok (updated, db') => .ok (some updated, db')

/-- `removeMediaFromPlaylist(playlistId, mediaId)`. -/
def removeMediaFromPlaylist (playlistId mediaId : Id) (db : DB Id) :
    Except String (Option (Playlist Id) × DB Id) :=
  match getPlaylistById playlistId db with
  | none => .ok (none, db)
  | some playlist =>
    let mediaIds := playlist.mediaIds.filter (fun m => m ≠ mediaId)
    match updatePlaylist playlistId { mediaIds := some mediaIds } db with
    | .error e => .error e
    | .ok (updated, db') => .ok (some updated, db')

/-- `deletePlaylist(id)`. -/
def deletePlaylist (id : Id) (db : DB Id) : DB Id :=
  { db with playlists := Store.delete Playlist.id id db.playlists }

/-- The body of the `for (const p of playlists)` loop of
`removeMediaFromAllPlaylists`, run over the playlists still to visit.  The
second component of the result lists the database after each `updatePlaylist`
that was awaited, oldest first. -/
def removeLoop (mediaId : Id) : List (Playlist Id) → DB Id →
    Except String (DB Id × List (DB Id))
  | [], db => .ok (db, [])
  | p :: ps, db =>
    if p.mediaIds.contains mediaId then
      match updatePlaylist p.id { mediaIds := some (p.mediaIds.filter (fun m => m ≠ mediaId)) } db with
      | .error e => .error e
      | .ok (_, db') =>
        match removeLoop mediaId ps db' with
        | .error e => .error e
        | .ok (out, trace) => .ok (out, db' :: trace)
    else removeLoop mediaId ps db

/-- `removeMediaFromAllPlaylists(mediaId)`: the loop over the snapshot taken by
`getAllPlaylists()`.  Besides the final database the result carries the log of
the loop, the database after each awaited `updatePlaylist`. -/
def removeMediaFromAllPlaylists (mediaId : Id) (db : DB Id) :
    Except String (DB Id × List (DB Id)) :=
  removeLoop mediaId (getAllPlaylists db) db

end Ops

/-! ## `app.js` -/

section App

variable {Id : Type} [LinearOrder Id]

/-- `applySearchFilter(list)`.  `searchValue` is `searchInput.value`, and
`toLowerCase` the built-in `String.prototype.toLowerCase`, which the model takes
as given.  `!q` holds exactly for the empty string. -/
def applySearchFilter (toLowerCase : String → String) (searchValue : String)
    (list : List (MediaRow Id)) : List (MediaRow Id) :=
  let q := toLowerCase (jsTrim searchValue)
  if q = "" then list
  else list.filter (fun m => includes (toLowerCase m.name).data q.data)

/-- `getCurrentMediaList()`, reading the variables `allMedia`, `allPlaylists`
and `currentPlaylistId`; `none` is the value `'all'`. -/
def getCurrentMediaList (toLowerCase : String → String) (searchValue : String)
    (allMedia : List (MediaRow Id)) (allPlaylists : List (Playlist Id))
    (currentPlaylistId : Option Id) : List (MediaRow Id) :=
  match currentPlaylistId with
  | none => applySearchFilter toLowerCase searchValue allMedia
  | some current =>
    match allPlaylists.find? (fun p => decide (p.id = current)) with
    | none => applySearchFilter toLowerCase searchValue allMedia
    | some playlist =>
      applySearchFilter toLowerCase searchValue
        (allMedia.filter (fun m => playlist.mediaIds.contains m.id))

/-- `deleteMediaById(id)` on the database; `confirmed` is the answer to the
`confirm(...)` dialog.  The closing `refreshData()` only reads the stores.  The
second component lists the database after every write that was awaited: the
playlist updates, then the media delete. -/
def deleteMediaById (confirmed : Bool) (id : Id) (db : DB Id) :
    Except String (DB Id × List (DB Id)) :=
  if !confirmed then .ok (db, [])
  else
    match removeMediaFromAllPlaylists id db with
    | .error e => .error e
    | .ok (cleaned, trace) => .ok (deleteMedia id cleaned, trace ++ [deleteMedia id cleaned])

end App

/-! ## Vocabulary of the properties -/

section Vocabulary

variable {Id : Type} [LinearOrder Id]

/-- A playlist with one media identifier filtered out of `mediaIds`. -/
def Playlist.without (mediaId : Id) (p : Playlist Id) : Playlist Id :=
  { p with mediaIds := p.mediaIds.filter (fun m => m ≠ mediaId) }

/-- Some playlist of the database lists `mediaId`. -/
def DB.Referenced (db : DB Id) (mediaId : Id) : Prop :=
  ∃ p ∈ db.playlists, mediaId ∈ p.mediaIds

/-- A media record with identifier `mediaId` is stored. -/
def DB.HasMedia (db : DB Id) (mediaId : Id) : Prop :=
  ∃ m ∈ db.media, m.id = mediaId

/-- No dangling reference: whatever a playlist lists is a stored media item. -/
def DB.NoDangling (db : DB Id) : Prop :=
  ∀ mediaId, db.Referenced mediaId → db.HasMedia mediaId

end Vocabulary

/-! ## Call sequences on one playlist -/

/-- A call on one playlist: `addMediaToPlaylist(p, m)` or
`removeMediaFromPlaylist(p, m)`. -/
inductive PlaylistCall (Id : Type) where
  | add (mediaId : Id)
  | remove (mediaId : Id)
  deriving DecidableEq, Repr

section Calls

variable {Id : Type} [LinearOrder Id]

/-- One call on playlist `p`, keeping the database it leaves. -/
def runCall (p : Id) : PlaylistCall Id → DB Id → Except String (DB Id)
  | .add m, db =>
    match addMediaToPlaylist p m db with
    | .error e => .error e
    | .ok (_, db') => .ok db'
  | .remove m, db =>
    match removeMediaFromPlaylist p m db with
    | .error e => .error e
    | .ok (_, db') => .ok db'

/-- A sequence of calls on playlist `p`, each awaited before the next. -/
def runCalls (p : Id) : List (PlaylistCall Id) → DB Id → Except String (DB Id)
  | [], db => .ok db
  | c :: cs, db =>
    match runCall p c db with
    | .error e => .error e
    | .ok db' => runCalls p cs db'

/-- The reading of "insertion order" taken from the specification, independent
of the code: calls are numbered from `t`, and the bookkeeping `f` gives for every
identifier now in the playlist the number of the add that inserted it.  An add
of an identifier that is already in the playlist inserts nothing; a remove
forgets the identifier. -/
def insertedAt (t : Nat) : List (PlaylistCall Id) → (Id → Option Nat) → Id → Option Nat
  | [], f => f
  | .add m :: cs, f =>
    insertedAt (t + 1) cs (fun x => if x = m ∧ (f m).isNone then some t else f x)
  | .remove m :: cs, f =>
    insertedAt (t + 1) cs (fun x => if x = m then none else f x)

/-- The identifier `a` was inserted strictly before `b` according to `f`. -/
def InsertedBefore (f : Id → Option Nat) (a b : Id) : Prop :=
  ∃ s u, f a = some s ∧ f b = some u ∧ s < u

/-- The sequence `l` lists exactly the identifiers `f` knows, in the order of
their insertion times, all of which lie before `t`. -/
def InInsertionOrder (l : List Id) (f : Id → Option Nat) (t : Nat) : Prop :=
  (∀ x, x ∈ l ↔ (f x).isSome) ∧ l.Pairwise (InsertedBefore f) ∧ ∀ x s, f x = some s → s < t

end Calls

/-! ## Sequences of service operations -/

/-- The operations the user interface performs on the stores.  `deleteMedia` is
the media deletion of `deleteMediaById` after the dialog was confirmed. -/
inductive ServiceOp (Id : Type) where
  | addMedia (newId : Id) (now : Nat) (file : File)
  | deleteMedia (id : Id)
  | createPlaylist (newId : Id) (now : Nat) (name : String)
  | addMediaToPlaylist (playlistId mediaId : Id)
  | removeMediaFromPlaylist (playlistId mediaId : Id)
  | deletePlaylist (id : Id)
  deriving DecidableEq, Repr

section Service

variable {Id : Type} [LinearOrder Id]

/-- The database left by one operation. -/
def runOp : ServiceOp Id → DB Id → Except String (DB Id)
  | .addMedia newId now file, db => .ok (addMedia newId now file db).2
  | .deleteMedia id, db =>
    match deleteMediaById true id db with
    | .error e => .error e
    | .ok (db', _) => .ok db'
  | .createPlaylist newId now name, db => .ok (createPlaylist newId now name db).2
  | .addMediaToPlaylist p m, db =>
    match addMediaToPlaylist p m db with
    | .error e => .error e
    | .ok (_, db') => .ok db'
  | .removeMediaFromPlaylist p m, db =>
    match removeMediaFromPlaylist p m db with
    | .error e => .error e
    | .ok (_, db') => .ok db'
  | .deletePlaylist id, db => .ok (deletePlaylist id db)

/-- A sequence of operations, each awaited before the next. -/
def runOps : List (ServiceOp Id) → DB Id → Except String (DB Id)
  | [], db => .ok db
  | op :: ops, db =>
    match runOp op db with
    | .error e => .error e
    | .ok db' => runOps ops db'

/-- The store before anything was uploaded or created. -/
def emptyDB : DB Id :=
  { media := [], playlists := [] }

/-- The operation names only stored media: an `addMediaToPlaylist` is given the
identifier of a media record that is in the store at that moment. -/
def namesStoredMedia (db : DB Id) : ServiceOp Id → Bool
  | .addMediaToPlaylist _ m => (getMediaById m db).isSome
  | _ => true

/-- Every `addMediaToPlaylist` of the sequence, run from `db`, names a media
record stored at the moment of the call, and no operation fails. -/
def runsOnStoredMedia : List (ServiceOp Id) → DB Id → Bool
  | [], _ => true
  | op :: ops, db =>
    namesStoredMedia db op &&
      match runOp op db with
      | .error _ => false
      | .ok db' => runsOnStoredMedia ops db'

/-- The rows of `allMedia` listed in the order in which their identifiers occur in
`mediaIds`. -/
def inMediaIdsOrder (allMedia : List (MediaRow Id)) (mediaIds : List Id) :
    List (MediaRow Id) :=
  mediaIds.flatMap (fun i => allMedia.filter (fun m => m.id = i))

end Service

/-! ## Concrete inputs -/

/-- A small database over numeric identifiers: two media items and three
playlists, two of which list media item `1`. -/
def sampleDB : DB Nat :=
  { media :=
      [ { id := 1, name := "a", blob := some ⟨"a.mp3", "audio/mpeg", [1, 2]⟩,
          type := MediaType.audio, mimeType := "audio/mpeg", createdAt := 5 },
        { id := 2, name := "b", blob := some ⟨"b.mp4", "video/mp4", [3]⟩,
          type := MediaType.video, mimeType := "video/mp4", createdAt := 6 } ]
    playlists :=
      [ { id := 10, name := "Road Trip", mediaIds := [1, 2], createdAt := 7 },
        { id := 11, name := "Quiet", mediaIds := [2], createdAt := 8 },
        { id := 12, name := "Loud", mediaIds := [2, 1], createdAt := 9 } ] }

/-- The store with no media and one playlist that lists the identifier `9`. -/
def danglingDB : DB Nat :=
  { media := []
    playlists := [ { id := 10, name := "Road Trip", mediaIds := [9], createdAt := 7 } ] }

/-- Lower-casing of the letters `A`–`Z` only; on strings of ASCII characters it
is what `String.prototype.toLowerCase` computes.  Used to run the filter on
concrete ASCII inputs. -/
def asciiToLowerCase (s : String) : String :=
  String.mk (s.data.map Char.toLower)

/-- Every character of the string is an ASCII character. -/
def IsAscii (s : String) : Prop :=
  ∀ c ∈ s.data, c.toNat < 128

instance (s : String) : Decidable (IsAscii s) := by
  unfold IsAscii; infer_instance

/-- What is assumed of the built-in `String.prototype.toLowerCase`: on a string
of ASCII characters it lower-cases the letters `A`–`Z` and leaves every other
character as it is.  Nothing is assumed about other strings. -/
def LowersAscii (toLowerCase : String → String) : Prop :=
  ∀ s : String, IsAscii s → toLowerCase s = asciiToLowerCase s

/-- The name contains the query as a substring when the case of the letters
`A`–`Z` is ignored: some substring of the name differs from the query at most
in letter case. -/
def ContainsIgnoringCase (name query : String) : Prop :=
  ∃ sub : List Char, sub <:+: name.data
    ∧ sub.map Char.toLower = query.data.map Char.toLower

/-- A `getAllMedia` row with the given identifier and name. -/
def audioRow (id : Nat) (name : String) : MediaRow Nat :=
  { id := id, name := name, type := MediaType.audio, mimeType := "audio/mpeg", createdAt := 0 }

/-- The query consists of characters that `trim` strips (or of none at all). -/
def IsBlank (query : String) : Prop :=
  ∀ c ∈ query.data, isJsWhiteSpace c = true

instance (query : String) : Decidable (IsBlank query) := by
  unfold IsBlank; infer_instance

end VideoWla

/-! ## Object-store lemmas -/

namespace VideoWla

namespace Store

variable {Id : Type} [LinearOrder Id] {α : Type}

theorem wf_iff_keys (key : α → Id) (s : List α) :
    WF key s ↔ (s.map key).Pairwise (· < ·) := by
  unfold WF
  rw [List.pairwise_map]

theorem get_put_self (key : α → Id) (r : α) (s : List α) :
    get key (key r) (put key r s) = some r := by
  induction s with
  | nil => simp [put, get]
  | cons x xs ih =>
    unfold put
    split_ifs with h1 h2
    · simp [get]
    · simp [get]
    · have hx : key x ≠ key r := fun h => h2 h.symm
      unfold get at ih ⊢
      rw [List.find?_cons_of_neg _ (by simpa using hx)]
      exact ih

theorem get_put_of_ne (key : α → Id) (r : α) (k : Id) (hk : k ≠ key r) (s : List α) :
    get key k (put key r s) = get key k s := by
  have hr : ¬ key r = k := fun h => hk h.symm
  induction s with
  | nil => simp [put, get, hr]
  | cons x xs ih =>
    unfold put
    split_ifs with h1 h2
    · simp [get, hr]
    · have hx : ¬ key x = k := fun h => hr (h2.trans h)
      simp [get, hr, hx]
    · unfold get at ih ⊢
      by_cases hx : key x = k
      · simp [hx]
      · rw [List.find?_cons_of_neg _ (by simpa using hx),
          List.find?_cons_of_neg _ (by simpa using hx)]
        exact ih

theorem get_split (key : α → Id) (pre : List α) (p : α) (post : List α)
    (h : WF key (pre ++ p :: post)) : get key (key p) (pre ++ p :: post) = some p := by
  induction pre with
  | nil => simp [get]
  | cons a pre ih =>
    have ha : key a < key p := by
      have := List.pairwise_cons.1 h
      exact this.1 p (by simp)
    have hne : ¬ key a = key p := ne_of_lt ha
    unfold get at ih ⊢
    rw [List.cons_append, List.find?_cons_of_neg _ (by simpa using hne)]
    exact ih (List.pairwise_cons.1 h).2

theorem put_split (key : α → Id) (r : α) (pre : List α) (p : α) (post : List α)
    (h : WF key (pre ++ p :: post)) (hr : key r = key p) :
    put key r (pre ++ p :: post) = pre ++ r :: post := by
  induction pre with
  | nil => simp [put, hr]
  | cons a pre ih =>
    have ha : key a < key p := (List.pairwise_cons.1 h).1 p (by simp)
    rw [List.cons_append, put, if_neg (by rw [hr]; exact not_lt_of_gt ha),
      if_neg (by rw [hr]; exact (ne_of_lt ha).symm), ih (List.pairwise_cons.1 h).2]
    rfl

theorem exists_split_of_get (key : α → Id) (k : Id) (s : List α) (p : α)
    (h : get key k s = some p) : key p = k ∧ ∃ pre post, s = pre ++ p :: post := by
  unfold get at h
  refine ⟨by simpa using List.find?_some h, ?_⟩
  exact List.append_of_mem (List.mem_of_find?_eq_some h)

theorem get_eq_none_iff (key : α → Id) (k : Id) (s : List α) :
    get key k s = none ↔ ∀ x ∈ s, key x ≠ k := by
  unfold get
  simp

theorem wf_put (key : α → Id) (r : α) (s : List α) (h : WF key s) : WF key (put key r s) := by
  induction s with
  | nil => simp [put, WF]
  | cons x xs ih =>
    have hx := List.pairwise_cons.1 h
    unfold put
    split_ifs with h1 h2
    · refine List.pairwise_cons.2 ⟨?_, h⟩
      intro y hy
      rcases List.mem_cons.1 hy with rfl | hy
      · exact h1
      · exact lt_trans h1 (hx.1 y hy)
    · refine List.pairwise_cons.2 ⟨?_, hx.2⟩
      intro y hy
      rw [h2]
      exact hx.1 y hy
    · have hlt : key x < key r := lt_of_le_of_ne (not_lt.1 h1) (fun e => h2 e.symm)
      refine List.pairwise_cons.2 ⟨?_, ih hx.2⟩
      intro y hy
      have : y = r ∨ y ∈ xs := by
        clear ih h hx
        induction xs with
        | nil => simpa [put] using hy
        | cons z zs ihz =>
          unfold put at hy
          split_ifs at hy
          · rcases List.mem_cons.1 hy with rfl | hy
            · exact Or.inl rfl
            · exact Or.inr hy
          · rcases List.mem_cons.1 hy with rfl | hy
            · exact Or.inl rfl
            · exact Or.inr (List.mem_cons_of_mem _ hy)
          · rcases List.mem_cons.1 hy with rfl | hy
            · exact Or.inr (List.mem_cons_self _ _)
            · rcases ihz hy with h' | h'
              · exact Or.inl h'
              · exact Or.inr (List.mem_cons_of_mem _ h')
      rcases this with rfl | hy
      · exact hlt
      · exact hx.1 y hy

theorem wf_delete (key : α → Id) (k : Id) (s : List α) (h : WF key s) :
    WF key (delete key k s) :=
  List.Pairwise.filter _ h

end Store

end VideoWla

/-! ## Media deletion -/

namespace VideoWla

section Deletion

variable {Id : Type} [LinearOrder Id]

theorem Playlist.without_of_not_mem (mediaId : Id) (p : Playlist Id)
    (h : mediaId ∉ p.mediaIds) : p.without mediaId = p := by
  cases p with
  | mk pid name ids created =>
    simp only [Playlist.without, Playlist.mk.injEq, true_and, and_true]
    apply List.filter_eq_self.2
    intro a ha
    have : a ≠ mediaId := fun e => h (e ▸ ha)
    simpa using this

theorem Playlist.not_mem_without (mediaId : Id) (p : Playlist Id) :
    mediaId ∉ (p.without mediaId).mediaIds := by
  simp [Playlist.without]

theorem Playlist.mem_without (mediaId m : Id) (p : Playlist Id) :
    m ∈ (p.without mediaId).mediaIds ↔ m ∈ p.mediaIds ∧ m ≠ mediaId := by
  simp [Playlist.without]

theorem applyUpdates_without (mediaId : Id) (p : Playlist Id) :
    applyUpdates p { mediaIds := some (p.mediaIds.filter (fun m => m ≠ mediaId)) }
      = p.without mediaId := rfl

theorem wf_map_without (mediaId : Id) (done ps : List (Playlist Id))
    (h : Store.WF Playlist.id (done ++ ps)) :
    Store.WF Playlist.id (done.map (Playlist.without mediaId) ++ ps) := by
  rw [Store.wf_iff_keys] at h ⊢
  have : (done.map (Playlist.without mediaId) ++ ps).map Playlist.id
      = (done ++ ps).map Playlist.id := by
    simp [List.map_append, Function.comp_def, Playlist.without]
  rw [this]
  exact h

/-- The loop of `removeMediaFromAllPlaylists` started with `done` already
visited and `ps` still to visit: it ends with every playlist filtered, and each
logged state has a visited part that is filtered and a rest that is untouched. -/
theorem removeLoop_spec (mediaId : Id) (media : List (MediaItem Id)) :
    ∀ (ps done : List (Playlist Id)), Store.WF Playlist.id (done ++ ps) →
      ∃ trace, removeLoop mediaId ps ⟨media, done.map (Playlist.without mediaId) ++ ps⟩
          = .ok (⟨media, (done ++ ps).map (Playlist.without mediaId)⟩, trace)
        ∧ (∀ t ∈ trace, ∃ d r, done ++ ps = d ++ r
            ∧ t = ⟨media, d.map (Playlist.without mediaId) ++ r⟩)
        ∧ trace.length = (ps.filter (fun p => p.mediaIds.contains mediaId)).length := by
  intro ps
  induction ps with
  | nil =>
    intro done _
    exact ⟨[], by simp [removeLoop], by simp, by simp⟩
  | cons p ps ih =>
    intro done h
    have h' : Store.WF Playlist.id ((done ++ [p]) ++ ps) := by simpa using h
    obtain ⟨trace, hrun, htrace, hlen⟩ := ih (done ++ [p]) h'
    have hwf := wf_map_without mediaId done (p :: ps) h
    by_cases hc : mediaId ∈ p.mediaIds
    · have hget : getPlaylistById p.id
          (⟨media, done.map (Playlist.without mediaId) ++ p :: ps⟩ : DB Id) = some p :=
        Store.get_split Playlist.id _ p ps hwf
      have hput : Store.put Playlist.id (p.without mediaId)
          (done.map (Playlist.without mediaId) ++ p :: ps)
          = (done ++ [p]).map (Playlist.without mediaId) ++ ps := by
        rw [Store.put_split Playlist.id (p.without mediaId) _ p ps hwf rfl]
        simp
      have hcc : p.mediaIds.contains mediaId = true := by simpa using hc
      refine ⟨⟨media, (done ++ [p]).map (Playlist.without mediaId) ++ ps⟩ :: trace, ?_, ?_,
        by simp [List.filter_cons, hc, hlen]⟩
      · have hcc : p.mediaIds.contains mediaId = true := by simpa using hc
        rw [removeLoop, if_pos hcc]
        simp only [updatePlaylist, hget, applyUpdates_without]
        rw [hput, hrun]
        simp
      · intro t ht
        rcases List.mem_cons.1 ht with rfl | ht
        · exact ⟨done ++ [p], ps, by simp, rfl⟩
        · obtain ⟨d, r, hdr, ht⟩ := htrace t ht
          exact ⟨d, r, by simpa using hdr, ht⟩
    · have hcc : ¬ p.mediaIds.contains mediaId = true := by simpa using hc
      refine ⟨trace, ?_, ?_, by simp [List.filter_cons, hc, hlen]⟩
      · rw [removeLoop, if_neg hcc]
        have : (done ++ [p]).map (Playlist.without mediaId) ++ ps
            = done.map (Playlist.without mediaId) ++ p :: ps := by
          simp [Playlist.without_of_not_mem mediaId p hc]
        rw [this] at hrun
        rw [hrun]
        simp
      · intro t ht
        obtain ⟨d, r, hdr, ht⟩ := htrace t ht
        exact ⟨d, r, by simpa using hdr, ht⟩

/-- What `removeMediaFromAllPlaylists` does to a well-formed database. -/
theorem removeMediaFromAllPlaylists_spec (mediaId : Id) (db : DB Id)
    (h : Store.WF Playlist.id db.playlists) :
    ∃ trace, removeMediaFromAllPlaylists mediaId db
        = .ok (⟨db.media, db.playlists.map (Playlist.without mediaId)⟩, trace)
      ∧ (∀ t ∈ trace, ∃ d r, db.playlists = d ++ r
          ∧ t = ⟨db.media, d.map (Playlist.without mediaId) ++ r⟩)
      ∧ trace.length = (db.playlists.filter (fun p => p.mediaIds.contains mediaId)).length := by
  have := removeLoop_spec mediaId db.media db.playlists [] (by simpa using h)
  simpa [removeMediaFromAllPlaylists, getAllPlaylists] using this

theorem not_referenced_map_without (id : Id) (media : List (MediaItem Id))
    (ps : List (Playlist Id)) :
    ¬ (⟨media, ps.map (Playlist.without id)⟩ : DB Id).Referenced id := by
  rintro ⟨p, hp, hid⟩
  obtain ⟨q, _, rfl⟩ := List.mem_map.1 hp
  exact Playlist.not_mem_without id q hid

theorem not_hasMedia_delete (id : Id) (media : List (MediaItem Id))
    (ps : List (Playlist Id)) :
    ¬ (⟨Store.delete MediaItem.id id media, ps⟩ : DB Id).HasMedia id := by
  rintro ⟨m, hm, hid⟩
  simp [Store.delete, hid] at hm

theorem referenced_of_mixed (id m : Id) (media media' : List (MediaItem Id))
    (d r : List (Playlist Id))
    (h : (⟨media, d.map (Playlist.without id) ++ r⟩ : DB Id).Referenced m) :
    (⟨media', d ++ r⟩ : DB Id).Referenced m ∧ (m = id → ∃ p ∈ r, id ∈ p.mediaIds) := by
  obtain ⟨p, hp, hm⟩ := h
  rcases List.mem_append.1 hp with hp | hp
  · obtain ⟨q, hq, rfl⟩ := List.mem_map.1 hp
    have := (Playlist.mem_without id m q).1 hm
    exact ⟨⟨q, List.mem_append_left _ hq, this.1⟩, fun e => absurd e this.2⟩
  · exact ⟨⟨p, List.mem_append_right _ hp, hm⟩, fun e => ⟨p, hp, e ▸ hm⟩⟩

end Deletion

end VideoWla

/-! ## Claims about media deletion -/

namespace VideoWla

section DeletionClaims

variable {Id : Type} [LinearOrder Id]

/-- C1: on every well-formed database a confirmed `deleteMediaById id` runs
`removeMediaFromAllPlaylists id` and then `deleteMedia id` to completion; the
playlists store it leaves holds the same playlist identifiers as before, no
playlist in that store (nor in what `getAllPlaylists` then returns) lists `id`
in its `mediaIds`, and no media record has the identifier `id`. -/
theorem deleteMediaById_referential_safety (id : Id) (db : DB Id) (h : db.WF) :
    ∃ cleaned log,
      removeMediaFromAllPlaylists id db = .ok (cleaned, log)
      ∧ deleteMediaById true id db
          = .ok (deleteMedia id cleaned, log ++ [deleteMedia id cleaned])
      ∧ (deleteMedia id cleaned).playlists.map Playlist.id = db.playlists.map Playlist.id
      ∧ (∀ p ∈ (deleteMedia id cleaned).playlists, id ∉ p.mediaIds)
      ∧ (∀ p ∈ getAllPlaylists (deleteMedia id cleaned), id ∉ p.mediaIds)
      ∧ (∀ m ∈ (deleteMedia id cleaned).media, m.id ≠ id)
      ∧ getMediaById id (deleteMedia id cleaned) = none := by
  obtain ⟨log, hrun, _, _⟩ := removeMediaFromAllPlaylists_spec id db h.2
  refine ⟨_, log, hrun, by simp [deleteMediaById, hrun], ?_, ?_, ?_, ?_, ?_⟩
  · simp [deleteMedia, Function.comp_def, Playlist.without]
  · intro p hp hid
    exact not_referenced_map_without id _ db.playlists ⟨p, hp, hid⟩
  · intro p hp hid
    exact not_referenced_map_without id _ db.playlists ⟨p, hp, hid⟩
  · intro m hm hid
    exact not_hasMedia_delete id db.media (db.playlists.map (Playlist.without id)) ⟨m, hm, hid⟩
  · rw [getMediaById, Store.get_eq_none_iff]
    intro m hm hid
    exact not_hasMedia_delete id db.media (db.playlists.map (Playlist.without id)) ⟨m, hm, hid⟩

/-- Witness of C1 on `sampleDB`, deleting media item `1`: playlists `10`, `11`
and `12` are all still stored and list `[2]` each. -/
theorem deleteMediaById_referential_safety_witness :
    sampleDB.WF
      ∧ (∃ cleaned log,
        removeMediaFromAllPlaylists 1 sampleDB = .ok (cleaned, log)
        ∧ deleteMediaById true 1 sampleDB
            = .ok (deleteMedia 1 cleaned, log ++ [deleteMedia 1 cleaned])
        ∧ (deleteMedia 1 cleaned).playlists.map Playlist.id
            = sampleDB.playlists.map Playlist.id
        ∧ (∀ p ∈ (deleteMedia 1 cleaned).playlists, 1 ∉ p.mediaIds)
        ∧ (∀ p ∈ getAllPlaylists (deleteMedia 1 cleaned), 1 ∉ p.mediaIds)
        ∧ (∀ m ∈ (deleteMedia 1 cleaned).media, m.id ≠ 1)
        ∧ getMediaById 1 (deleteMedia 1 cleaned) = none)
      ∧ (match deleteMediaById true 1 sampleDB with
          | .ok (out, _) =>
            some (out.playlists.map (fun p => (p.id, p.mediaIds)), out.media.map MediaItem.id)
          | .error _ => none) = some ([(10, [2]), (11, [2]), (12, [2])], [2]) :=
  ⟨by decide, deleteMediaById_referential_safety 1 sampleDB (by decide), by decide⟩

/-- C2: on every well-formed database without dangling references a confirmed
`deleteMediaById id` completes, its log holds one state per playlist that listed
`id` followed by the state after `deleteMedia`, and in every logged state it is
not the case that `id` is missing from the media store while a playlist still
lists it; indeed no logged state has any dangling reference. -/
theorem deleteMediaById_step_order (id : Id) (db : DB Id) (h : db.WF)
    (hnd : db.NoDangling) :
    ∃ out log, deleteMediaById true id db = .ok (out, log)
      ∧ log.getLast? = some out
      ∧ log.length = (db.playlists.filter (fun p => p.mediaIds.contains id)).length + 1
      ∧ ∀ t ∈ log,
          ¬ ((∀ m ∈ t.media, m.id ≠ id) ∧ ∃ p ∈ t.playlists, id ∈ p.mediaIds)
          ∧ t.NoDangling := by
  obtain ⟨log, hrun, hlog, hlen⟩ := removeMediaFromAllPlaylists_spec id db h.2
  have key : ∀ t ∈ log ++ [deleteMedia id ⟨db.media, db.playlists.map (Playlist.without id)⟩],
      t.NoDangling := by
    intro t ht
    rcases List.mem_append.1 ht with ht | ht
    · obtain ⟨d, r, hdr, rfl⟩ := hlog t ht
      intro m hm
      have href := (referenced_of_mixed id m db.media db.media d r hm).1
      rw [← hdr] at href
      exact hnd m href
    · rw [List.mem_singleton] at ht
      subst ht
      intro m hm
      have hne : m ≠ id := by
        rintro rfl
        exact not_referenced_map_without m db.media db.playlists (by simpa [deleteMedia] using hm)
      have href : db.Referenced m := by
        obtain ⟨p, hp, hmem⟩ := hm
        obtain ⟨q, hq, rfl⟩ := List.mem_map.1 (by simpa [deleteMedia] using hp)
        exact ⟨q, hq, ((Playlist.mem_without id m q).1 hmem).1⟩
      obtain ⟨item, hitem, hid⟩ := hnd m href
      refine ⟨item, ?_, hid⟩
      simp [deleteMedia, Store.delete, hitem, hid, hne]
  refine ⟨deleteMedia id ⟨db.media, db.playlists.map (Playlist.without id)⟩,
    log ++ [deleteMedia id ⟨db.media, db.playlists.map (Playlist.without id)⟩],
    by simp [deleteMediaById, hrun], by simp, by simp [hlen], ?_⟩
  intro t ht
  refine ⟨?_, key t ht⟩
  rintro ⟨habs, p, hp, hid⟩
  obtain ⟨m, hm, hmid⟩ := key t ht id ⟨p, hp, hid⟩
  exact habs m hm hmid

end DeletionClaims

end VideoWla

namespace VideoWla

/-- Witness of C2 on `sampleDB`, deleting media item `1`. -/
theorem deleteMediaById_step_order_witness :
    sampleDB.WF ∧ sampleDB.NoDangling ∧
    ∃ out log, deleteMediaById true 1 sampleDB = .ok (out, log)
      ∧ log.getLast? = some out
      ∧ log.length = (sampleDB.playlists.filter (fun p => p.mediaIds.contains 1)).length + 1
      ∧ ∀ t ∈ log,
          ¬ ((∀ m ∈ t.media, m.id ≠ 1) ∧ ∃ p ∈ t.playlists, 1 ∈ p.mediaIds)
          ∧ t.NoDangling :=
  have hnd : sampleDB.NoDangling := by
    intro m hm
    obtain ⟨p, hp, hmem⟩ := hm
    simp [sampleDB] at hp
    rcases hp with rfl | rfl | rfl <;> simp at hmem <;>
      rcases hmem with rfl | rfl <;> simp [DB.HasMedia, sampleDB]
  ⟨by decide, hnd, deleteMediaById_step_order 1 sampleDB (by decide) hnd⟩

end VideoWla

/-! ## Playlist updates -/

namespace VideoWla

section PlaylistLemmas

variable {Id : Type} [LinearOrder Id]

theorem getPlaylistById_id (pid : Id) (db : DB Id) (pl : Playlist Id)
    (h : getPlaylistById pid db = some pl) : pl.id = pid :=
  (Store.exists_split_of_get Playlist.id pid db.playlists pl h).1

theorem getPlaylistById_mem (pid : Id) (db : DB Id) (pl : Playlist Id)
    (h : getPlaylistById pid db = some pl) : pl ∈ db.playlists := by
  obtain ⟨_, pre, post, hs⟩ := Store.exists_split_of_get Playlist.id pid db.playlists pl h
  rw [hs]
  simp

theorem getPlaylistById_put (pid : Id) (q : Playlist Id) (db : DB Id) (h : q.id = pid) :
    getPlaylistById pid { db with playlists := Store.put Playlist.id q db.playlists }
      = some q := by
  subst h
  exact Store.get_put_self Playlist.id q db.playlists

theorem updatePlaylist_of_get (pid : Id) (u : PlaylistUpdates Id) (db : DB Id)
    (pl : Playlist Id) (h : getPlaylistById pid db = some pl) :
    updatePlaylist pid u db
      = .ok (applyUpdates pl u,
          { db with playlists := Store.put Playlist.id (applyUpdates pl u) db.playlists }) := by
  simp [updatePlaylist, h]

/-- The result of `addMediaToPlaylist` on a playlist that does not yet list the
media identifier. -/
theorem addMediaToPlaylist_fresh (pid m : Id) (db : DB Id) (pl : Playlist Id)
    (h : getPlaylistById pid db = some pl) (hm : m ∉ pl.mediaIds) :
    addMediaToPlaylist pid m db
      = .ok (some { pl with mediaIds := pl.mediaIds ++ [m] },
          { db with playlists :=
              Store.put Playlist.id { pl with mediaIds := pl.mediaIds ++ [m] } db.playlists }) := by
  have hc : ¬ pl.mediaIds.contains m = true := by simpa using hm
  simp only [addMediaToPlaylist, h, if_neg hc, updatePlaylist_of_get pid _ db pl h]
  rfl

/-- The result of `addMediaToPlaylist` on a playlist that already lists the media
identifier. -/
theorem addMediaToPlaylist_present (pid m : Id) (db : DB Id) (pl : Playlist Id)
    (h : getPlaylistById pid db = some pl) (hm : m ∈ pl.mediaIds) :
    addMediaToPlaylist pid m db = .ok (some pl, db) := by
  have hc : pl.mediaIds.contains m = true := by simpa using hm
  simp only [addMediaToPlaylist, h]
  rw [if_pos hc]

theorem addMediaToPlaylist_missing (pid m : Id) (db : DB Id)
    (h : getPlaylistById pid db = none) :
    addMediaToPlaylist pid m db = .ok (none, db) := by
  simp [addMediaToPlaylist, h]

/-- The result of `removeMediaFromPlaylist` on a stored playlist. -/
theorem removeMediaFromPlaylist_of_get (pid m : Id) (db : DB Id) (pl : Playlist Id)
    (h : getPlaylistById pid db = some pl) :
    removeMediaFromPlaylist pid m db
      = .ok (some (pl.without m),
          { db with playlists := Store.put Playlist.id (pl.without m) db.playlists }) := by
  simp only [removeMediaFromPlaylist, h, updatePlaylist_of_get pid _ db pl h]
  rfl

end PlaylistLemmas

section PlaylistClaims

variable {Id : Type} [LinearOrder Id]

/-- C3: `addMediaToPlaylist p m` always completes, and calling it a second time
on the database it left returns the same value and leaves that database as it
is; when the stored playlist already lists `m`, the first call returns that
playlist and the database is unchanged. -/
theorem addMediaToPlaylist_idempotent (p m : Id) (db : DB Id) :
    ∃ r db1, addMediaToPlaylist p m db = .ok (r, db1)
      ∧ addMediaToPlaylist p m db1 = .ok (r, db1)
      ∧ (∀ pl, getPlaylistById p db = some pl → m ∈ pl.mediaIds →
          r = some pl ∧ db1 = db) := by
  cases hget : getPlaylistById p db with
  | none =>
    exact ⟨none, db, addMediaToPlaylist_missing p m db hget,
      addMediaToPlaylist_missing p m db hget, by simp⟩
  | some pl =>
    by_cases hm : m ∈ pl.mediaIds
    · refine ⟨some pl, db, addMediaToPlaylist_present p m db pl hget hm,
        addMediaToPlaylist_present p m db pl hget hm, ?_⟩
      intro pl' hpl' _
      exact ⟨by rw [Option.some.inj hpl'], rfl⟩
    · refine ⟨_, _, addMediaToPlaylist_fresh p m db pl hget hm, ?_, ?_⟩
      · apply addMediaToPlaylist_present
        · exact getPlaylistById_put p _ db (getPlaylistById_id p db pl hget)
        · simp
      · intro pl' hpl' hm'
        rw [← Option.some.inj hpl'] at hm'
        exact absurd hm' hm

/-- C8: on a stored playlist `removeMediaFromPlaylist p m` completes and stores
under `p` the playlist whose `mediaIds` is the old sequence with every `m`
filtered out: `m` no longer occurs, every other identifier occurs as often as
before, and the new sequence is a subsequence of the old one. -/
theorem removeMediaFromPlaylist_removes_all (p m : Id) (db : DB Id) (pl : Playlist Id)
    (h : getPlaylistById p db = some pl) :
    ∃ pl' db', removeMediaFromPlaylist p m db = .ok (some pl', db')
      ∧ getPlaylistById p db' = some pl'
      ∧ pl'.mediaIds = pl.mediaIds.filter (fun x => x ≠ m)
      ∧ m ∉ pl'.mediaIds
      ∧ (∀ x, x ≠ m → pl'.mediaIds.count x = pl.mediaIds.count x)
      ∧ pl'.mediaIds.Sublist pl.mediaIds := by
  refine ⟨pl.without m, _, removeMediaFromPlaylist_of_get p m db pl h,
    getPlaylistById_put p _ db (getPlaylistById_id p db pl h), rfl,
    Playlist.not_mem_without m pl, ?_, ?_⟩
  · intro x hx
    simp only [Playlist.without]
    rw [List.count_filter]
    simpa using hx
  · exact List.filter_sublist _

/-- Witness of C8: media item `1` removed from playlist `12` of `sampleDB`. -/
theorem removeMediaFromPlaylist_removes_all_witness :
    getPlaylistById 12 sampleDB
        = some { id := 12, name := "Loud", mediaIds := [2, 1], createdAt := 9 }
      ∧ ∃ pl' db', removeMediaFromPlaylist 12 1 sampleDB = .ok (some pl', db')
        ∧ getPlaylistById 12 db' = some pl'
        ∧ pl'.mediaIds = [2, 1].filter (fun x => x ≠ 1)
        ∧ 1 ∉ pl'.mediaIds
        ∧ (∀ x, x ≠ 1 → pl'.mediaIds.count x = [2, 1].count x)
        ∧ pl'.mediaIds.Sublist [2, 1] :=
  ⟨by decide, removeMediaFromPlaylist_removes_all 12 1 sampleDB
    { id := 12, name := "Loud", mediaIds := [2, 1], createdAt := 9 } (by decide)⟩

/-- C9: when no stored playlist has the identifier `playlistId`,
`addMediaToPlaylist playlistId mediaId` raises nothing, returns no playlist and
leaves the database, media and playlists, exactly as it was. -/
theorem addMediaToPlaylist_missing_playlist (playlistId mediaId : Id) (db : DB Id)
    (h : ∀ q ∈ db.playlists, q.id ≠ playlistId) :
    addMediaToPlaylist playlistId mediaId db = .ok (none, db) :=
  addMediaToPlaylist_missing playlistId mediaId db
    ((Store.get_eq_none_iff Playlist.id playlistId db.playlists).2 h)

/-- Witness of C9: playlist `13` is not stored in `sampleDB`. -/
theorem addMediaToPlaylist_missing_playlist_witness :
    (∀ q ∈ sampleDB.playlists, q.id ≠ 13)
      ∧ addMediaToPlaylist 13 1 sampleDB = .ok (none, sampleDB) :=
  ⟨by decide, addMediaToPlaylist_missing_playlist 13 1 sampleDB (by decide)⟩

/-- C10: after `deletePlaylist id` the playlists returned by `getAllPlaylists`
are the previous ones whose identifier differs from `id`, in the same order and
unchanged, none of them has identifier `id`, and the media store and the rows of
`getAllMedia` are what they were. -/
theorem deletePlaylist_no_cascade (id : Id) (db : DB Id) :
    (∀ p ∈ getAllPlaylists (deletePlaylist id db), p.id ≠ id)
      ∧ getAllPlaylists (deletePlaylist id db)
          = (getAllPlaylists db).filter (fun p => p.id ≠ id)
      ∧ (∀ p ∈ getAllPlaylists db, p.id ≠ id → p ∈ getAllPlaylists (deletePlaylist id db))
      ∧ (deletePlaylist id db).media = db.media
      ∧ getAllMedia (deletePlaylist id db) = getAllMedia db
      ∧ (getAllMedia (deletePlaylist id db)).length = (getAllMedia db).length := by
  refine ⟨?_, ?_, ?_, rfl, rfl, rfl⟩
  · intro p hp
    simpa [getAllPlaylists, deletePlaylist, Store.delete] using (List.mem_filter.1 hp).2
  · simp [getAllPlaylists, deletePlaylist, Store.delete]
  · intro p hp hne
    simpa [getAllPlaylists, deletePlaylist, Store.delete] using And.intro hp hne

end PlaylistClaims

end VideoWla

/-! ## Uploads -/

namespace VideoWla

section UploadLemmas

theorem replaceExt_append (base ext : List Char) (hext : ext ≠ [])
    (hdot : '.' ∉ ext) (hslash : '/' ∉ ext) :
    replaceExt (base ++ '.' :: ext) = base := by
  induction base with
  | nil =>
    have hall : ext.all (fun d => decide (d ≠ '/') && decide (d ≠ '.')) = true := by
      rw [List.all_eq_true]
      intro d hd
      have h1 : d ≠ '/' := fun e => hslash (e ▸ hd)
      have h2 : d ≠ '.' := fun e => hdot (e ▸ hd)
      simp [h1, h2]
    have hne : ext.isEmpty = false := by
      cases ext with
      | nil => exact absurd rfl hext
      | cons _ _ => rfl
    simp only [List.nil_append, replaceExt, extMatchesAt, hall, hne]
    simp
  | cons c cs ih =>
    have hno : extMatchesAt (c :: (cs ++ '.' :: ext)) = false := by
      have : (cs ++ '.' :: ext).all (fun d => decide (d ≠ '/') && decide (d ≠ '.')) = false := by
        rw [Bool.eq_false_iff]
        intro hall
        rw [List.all_eq_true] at hall
        have := hall '.' (by simp)
        simp at this
      simp [extMatchesAt, this]
    rw [List.cons_append, replaceExt, hno]
    simp [ih]

theorem deriveName_append (base ext : String) (hbase : base ≠ "") (hext : ext ≠ "")
    (hdot : '.' ∉ ext.data) (hslash : '/' ∉ ext.data) :
    deriveName (base ++ "." ++ ext) = base := by
  have hdata : (base ++ "." ++ ext).data = base.data ++ '.' :: ext.data := by
    simp [String.data_append]
  have hext' : ext.data ≠ [] := fun e => hext (String.ext e)
  have hstrip : String.mk (replaceExt (base ++ "." ++ ext).data) = base := by
    rw [hdata, replaceExt_append base.data ext.data hext' hdot hslash]
  unfold deriveName
  simp only [hstrip]
  rw [if_neg hbase]

theorem getMediaById_addMedia {Id : Type} [LinearOrder Id] (newId : Id) (now : Nat)
    (f : File) (db : DB Id) :
    getMediaById newId (addMedia newId now f db).2
      = some (MediaItem.mk newId (deriveName f.name) (some f)
          (if "video/".data.isPrefixOf f.type.data then MediaType.video else MediaType.audio)
          f.type now) :=
  Store.get_put_self MediaItem.id
    (MediaItem.mk newId (deriveName f.name) (some f)
      (if "video/".data.isPrefixOf f.type.data then MediaType.video else MediaType.audio)
      f.type now) db.media

end UploadLemmas

section UploadClaims

variable {Id : Type} [LinearOrder Id]

/-- C5: after `addMedia f` has returned metadata with identifier `i`,
`getMediaById i` returns a record whose blob is `f` itself, payload included,
whose `mimeType` is `f`'s declared type and whose `type` is `'video'` exactly
when the declared type starts with `"video/"`, and `'audio'` otherwise. -/
theorem addMedia_round_trip (newId : Id) (now : Nat) (f : File) (db : DB Id) :
    ∃ item, getMediaById (addMedia newId now f db).1.id (addMedia newId now f db).2 = some item
      ∧ item.blob = some f
      ∧ item.blob.map File.payload = some f.payload
      ∧ item.mimeType = f.type
      ∧ (item.type = MediaType.video ↔ ∃ rest : String, f.type = "video/" ++ rest)
      ∧ (item.type = MediaType.audio ↔ ¬ ∃ rest : String, f.type = "video/" ++ rest) := by
  have hpre : ("video/".data.isPrefixOf f.type.data = true)
      ↔ ∃ rest : String, f.type = "video/" ++ rest := by
    rw [List.isPrefixOf_iff_prefix]
    constructor
    · rintro ⟨t, ht⟩
      exact ⟨String.mk t, String.ext (by rw [String.data_append, ← ht])⟩
    · rintro ⟨rest, hrest⟩
      exact ⟨rest.data, by rw [hrest, String.data_append]⟩
  refine ⟨_, getMediaById_addMedia newId now f db, rfl, rfl, rfl, ?_, ?_⟩
  · rw [← hpre]
    by_cases hv : "video/".data.isPrefixOf f.type.data = true <;> simp [hv]
  · rw [← hpre]
    by_cases hv : "video/".data.isPrefixOf f.type.data = true <;> simp [hv]

/-- C6: when the uploaded file's name is `base ++ "." ++ ext` with `base` and
`ext` non-empty and neither `.` nor `/` in `ext`, the metadata returned by
`addMedia` and the record it stores both carry the name `base`. -/
theorem addMedia_name_strips_last_extension (newId : Id) (now : Nat) (f : File)
    (db : DB Id) (base ext : String) (hname : f.name = base ++ "." ++ ext)
    (hbase : base ≠ "") (hext : ext ≠ "") (hdot : '.' ∉ ext.data)
    (hslash : '/' ∉ ext.data) :
    (addMedia newId now f db).1.name = base
      ∧ (getMediaById newId (addMedia newId now f db).2).map MediaItem.name = some base := by
  have hn : deriveName f.name = base := by
    rw [hname]
    exact deriveName_append base ext hbase hext hdot hslash
  refine ⟨hn, ?_⟩
  rw [getMediaById_addMedia]
  simp [hn]

/-- Witness of C6: the file `"song.final.mp3"` is stored as `"song.final"`. -/
theorem addMedia_name_strips_last_extension_witness :
    (addMedia 3 20 ⟨"song.final.mp3", "audio/mpeg", [7]⟩ sampleDB).1.name = "song.final"
      ∧ (getMediaById 3 (addMedia 3 20 ⟨"song.final.mp3", "audio/mpeg", [7]⟩ sampleDB).2).map
          MediaItem.name = some "song.final" :=
  addMedia_name_strips_last_extension 3 20 ⟨"song.final.mp3", "audio/mpeg", [7]⟩ sampleDB
    "song.final" "mp3" (by decide) (by decide) (by decide) (by decide) (by decide)

end UploadClaims

end VideoWla

/-! ## Search filter -/

namespace VideoWla

section FilterLemmas

theorem includes_iff (hay needle : List Char) :
    includes hay needle = true ↔ needle <:+: hay := by
  induction hay with
  | nil => simp [includes, List.isEmpty_iff]
  | cons c cs ih =>
    rw [includes, Bool.or_eq_true, ih, List.infix_cons_iff, List.isPrefixOf_iff_prefix]

theorem jsTrim_eq_empty_iff (query : String) : jsTrim query = "" ↔ IsBlank query := by
  have hmk : ∀ l : List Char, String.mk l = "" ↔ l = [] := by
    intro l
    constructor
    · intro h
      have := congrArg String.data h
      simpa using this
    · rintro rfl
      rfl
  unfold jsTrim IsBlank
  rw [hmk, List.reverse_eq_nil_iff, List.dropWhile_eq_nil_iff]
  constructor
  · intro h
    have hnil : query.data.dropWhile isJsWhiteSpace = [] := by
      by_contra hne
      have h1 := List.head_dropWhile_not isJsWhiteSpace query.data hne
      have h2 := h _ (List.mem_reverse.2 (List.head_mem hne))
      rw [h1] at h2
      exact Bool.false_ne_true h2
    exact List.dropWhile_eq_nil_iff.1 hnil
  · intro h x hx
    exact h x ((List.dropWhile_sublist _).subset (List.mem_reverse.1 hx))

theorem infix_map_iff {α β : Type} (f : α → β) (q n : List α) :
    q.map f <:+: n.map f ↔ ∃ sub, sub <:+: n ∧ sub.map f = q.map f := by
  constructor
  · rintro ⟨s, t, hst⟩
    obtain ⟨l₁, l₂, hn, h₁, _⟩ := List.map_eq_append_iff.1 hst.symm
    obtain ⟨a, b, hl₁, _, hb⟩ := List.map_eq_append_iff.1 h₁
    exact ⟨b, ⟨a, l₂, by rw [hn, hl₁]⟩, hb⟩
  · rintro ⟨sub, hsub, hmap⟩
    rw [← hmap]
    exact hsub.map f

theorem isAscii_jsTrim (s : String) (h : IsAscii s) : IsAscii (jsTrim s) := by
  intro c hc
  apply h
  have h1 : c ∈ (s.data.dropWhile isJsWhiteSpace).reverse.dropWhile isJsWhiteSpace :=
    List.mem_reverse.1 hc
  have h2 : c ∈ (s.data.dropWhile isJsWhiteSpace).reverse :=
    (List.dropWhile_sublist _).subset h1
  exact (List.dropWhile_sublist _).subset (List.mem_reverse.1 h2)

theorem asciiToLowerCase_data (s : String) :
    (asciiToLowerCase s).data = s.data.map Char.toLower := rfl

/-- The filter written with the substring relation instead of `includes`. -/
theorem applySearchFilter_eq_filter {Id : Type} (toLowerCase : String → String)
    (query : String) (list : List (MediaRow Id)) :
    applySearchFilter toLowerCase query list
      = list.filter (fun m =>
          decide ((toLowerCase (jsTrim query)).data <:+: (toLowerCase m.name).data)) := by
  have hfilter : list.filter (fun m =>
        includes (toLowerCase m.name).data (toLowerCase (jsTrim query)).data)
      = list.filter (fun m =>
        decide ((toLowerCase (jsTrim query)).data <:+: (toLowerCase m.name).data)) := by
    apply List.filter_congr
    intro m _
    rw [Bool.eq_iff_iff, includes_iff]
    simp
  unfold applySearchFilter
  by_cases hq : toLowerCase (jsTrim query) = ""
  · simp only [hq, if_true]
    symm
    apply List.filter_eq_self.2
    intro m _
    simp
  · simp only [hq, if_false]
    exact hfilter

end FilterLemmas

section FilterClaims

variable {Id : Type}

/-- C7, as amended: for a `toLowerCase` that lower-cases ASCII strings the way
the built-in does, `applySearchFilter` returns the list unchanged when the
query is empty or whitespace only; otherwise it returns, in input order,
exactly the items whose lower-cased name contains the lower-cased trimmed
query as a substring; when the query and the names are ASCII these are exactly
the items whose name contains the trimmed query with letter case ignored; and
the query `"ROCK"` keeps an item named `"My Rock Mix"` and drops one named
`"Jazz"`. -/
theorem applySearchFilter_spec (toLowerCase : String → String)
    (hlow : LowersAscii toLowerCase) (query : String) (list : List (MediaRow Id)) :
    (IsBlank query → applySearchFilter toLowerCase query list = list)
      ∧ (¬ IsBlank query →
          applySearchFilter toLowerCase query list
            = list.filter (fun m =>
                decide ((toLowerCase (jsTrim query)).data <:+: (toLowerCase m.name).data)))
      ∧ (¬ IsBlank query → IsAscii query → (∀ m ∈ list, IsAscii m.name) →
          applySearchFilter toLowerCase query list
              = list.filter (fun m =>
                  decide ((jsTrim query).data.map Char.toLower
                    <:+: m.name.data.map Char.toLower))
            ∧ ∀ m, m ∈ applySearchFilter toLowerCase query list
                ↔ m ∈ list ∧ ContainsIgnoringCase m.name (jsTrim query))
      ∧ (∀ a b : MediaRow Id,
          applySearchFilter toLowerCase "ROCK"
              [MediaRow.mk a.id "My Rock Mix" a.type a.mimeType a.createdAt,
                MediaRow.mk b.id "Jazz" b.type b.mimeType b.createdAt]
            = [MediaRow.mk a.id "My Rock Mix" a.type a.mimeType a.createdAt]) := by
  have hempty : toLowerCase "" = "" := by
    rw [hlow "" (by decide)]
    decide
  have hascii : IsAscii query → (∀ m ∈ list, IsAscii m.name) →
      applySearchFilter toLowerCase query list
        = list.filter (fun m =>
            decide ((jsTrim query).data.map Char.toLower
              <:+: m.name.data.map Char.toLower)) := by
    intro hq hnames
    rw [applySearchFilter_eq_filter]
    apply List.filter_congr
    intro m hm
    rw [hlow (jsTrim query) (isAscii_jsTrim query hq), hlow m.name (hnames m hm),
      asciiToLowerCase_data, asciiToLowerCase_data]
  refine ⟨?_, fun _ => applySearchFilter_eq_filter toLowerCase query list, ?_, ?_⟩
  · intro hb
    have : jsTrim query = "" := (jsTrim_eq_empty_iff query).2 hb
    simp [applySearchFilter, this, hempty]
  · intro _ hq hnames
    refine ⟨hascii hq hnames, ?_⟩
    intro m
    rw [hascii hq hnames, List.mem_filter, decide_eq_true_iff, infix_map_iff]
    rfl
  · intro a b
    have h1 : toLowerCase (jsTrim "ROCK") = "rock" := by
      rw [hlow (jsTrim "ROCK") (by decide)]
      decide
    have h2 : toLowerCase "My Rock Mix" = "my rock mix" := by
      rw [hlow "My Rock Mix" (by decide)]
      decide
    have h3 : toLowerCase "Jazz" = "jazz" := by
      rw [hlow "Jazz" (by decide)]
      decide
    have i1 : includes "my rock mix".data "rock".data = true := by decide
    have i2 : includes "jazz".data "rock".data = false := by decide
    have hne : ¬ ("rock" : String) = "" := by decide
    simp only [applySearchFilter, h1, if_neg hne, List.filter_cons, h2, h3, i1, i2,
      List.filter_nil, if_true]
    simp

/-- Witness of C7 with ASCII lower-casing: the query `"ROCK"`, also written
`" roCK "`, keeps `"My Rock Mix"` and drops `"Jazz"`; a query of two spaces
keeps both. -/
theorem applySearchFilter_spec_witness :
    LowersAscii asciiToLowerCase
      ∧ ((IsBlank "ROCK" → applySearchFilter asciiToLowerCase "ROCK"
              [audioRow 1 "My Rock Mix", audioRow 2 "Jazz"]
            = [audioRow 1 "My Rock Mix", audioRow 2 "Jazz"])
        ∧ (¬ IsBlank "ROCK" →
            applySearchFilter asciiToLowerCase "ROCK"
                [audioRow 1 "My Rock Mix", audioRow 2 "Jazz"]
              = [audioRow 1 "My Rock Mix", audioRow 2 "Jazz"].filter (fun m =>
                  decide ((asciiToLowerCase (jsTrim "ROCK")).data
                    <:+: (asciiToLowerCase m.name).data)))
        ∧ (¬ IsBlank "ROCK" → IsAscii "ROCK" →
            (∀ m ∈ [audioRow 1 "My Rock Mix", audioRow 2 "Jazz"], IsAscii m.name) →
            applySearchFilter asciiToLowerCase "ROCK"
                [audioRow 1 "My Rock Mix", audioRow 2 "Jazz"]
                = [audioRow 1 "My Rock Mix", audioRow 2 "Jazz"].filter (fun m =>
                    decide ((jsTrim "ROCK").data.map Char.toLower
                      <:+: m.name.data.map Char.toLower))
              ∧ ∀ m, m ∈ applySearchFilter asciiToLowerCase "ROCK"
                    [audioRow 1 "My Rock Mix", audioRow 2 "Jazz"]
                  ↔ m ∈ [audioRow 1 "My Rock Mix", audioRow 2 "Jazz"]
                    ∧ ContainsIgnoringCase m.name (jsTrim "ROCK"))
        ∧ (∀ a b : MediaRow Nat,
            applySearchFilter asciiToLowerCase "ROCK"
                [MediaRow.mk a.id "My Rock Mix" a.type a.mimeType a.createdAt,
                  MediaRow.mk b.id "Jazz" b.type b.mimeType b.createdAt]
              = [MediaRow.mk a.id "My Rock Mix" a.type a.mimeType a.createdAt]))
      ∧ applySearchFilter asciiToLowerCase "ROCK"
          [audioRow 1 "My Rock Mix", audioRow 2 "Jazz"] = [audioRow 1 "My Rock Mix"]
      ∧ applySearchFilter asciiToLowerCase " roCK "
          [audioRow 1 "My Rock Mix", audioRow 2 "Jazz"] = [audioRow 1 "My Rock Mix"]
      ∧ applySearchFilter asciiToLowerCase "  "
          [audioRow 1 "My Rock Mix", audioRow 2 "Jazz"]
          = [audioRow 1 "My Rock Mix", audioRow 2 "Jazz"] :=
  ⟨fun _ _ => rfl,
    applySearchFilter_spec asciiToLowerCase (fun _ _ => rfl) "ROCK"
      [audioRow 1 "My Rock Mix", audioRow 2 "Jazz"],
    by decide, by decide, by decide⟩

/-- C7 as stated fails: the query `" rock"` is not blank, the filter keeps the
item named `"rock"`, yet that name does not contain `" rock"` with case ignored,
so the items whose name contains the query are none. -/
theorem applySearchFilter_untrimmed_counterexample :
    ¬ IsBlank " rock"
      ∧ applySearchFilter asciiToLowerCase " rock" [audioRow 1 "rock"] = [audioRow 1 "rock"]
      ∧ [audioRow 1 "rock"].filter (fun m =>
          decide ((asciiToLowerCase " rock").data <:+: (asciiToLowerCase m.name).data)) = [] := by
  decide

end FilterClaims

end VideoWla

namespace VideoWla

section OrderLemmas

variable {Id : Type} [LinearOrder Id]

theorem inInsertionOrder_add_present (l : List Id) (f : Id → Option Nat) (t : Nat) (m : Id)
    (h : InInsertionOrder l f t) (hm : m ∈ l) :
    InInsertionOrder l (fun x => if x = m ∧ (f m).isNone then some t else f x) (t + 1) := by
  have hsome : (f m).isSome = true := (h.1 m).1 hm
  have hf : (fun x => if x = m ∧ (f m).isNone then some t else f x) = f := by
    funext x
    have : ¬ (x = m ∧ (f m).isNone = true) := by
      rintro ⟨_, hn⟩
      cases hfm : f m with
      | none => rw [hfm] at hsome; exact Bool.false_ne_true hsome
      | some v => rw [hfm] at hn; exact Bool.false_ne_true hn
    rw [if_neg this]
  rw [hf]
  exact ⟨h.1, h.2.1, fun x s hx => Nat.lt_succ_of_lt (h.2.2 x s hx)⟩

theorem inInsertionOrder_add_fresh (l : List Id) (f : Id → Option Nat) (t : Nat) (m : Id)
    (h : InInsertionOrder l f t) (hm : m ∉ l) :
    InInsertionOrder (l ++ [m])
      (fun x => if x = m ∧ (f m).isNone then some t else f x) (t + 1) := by
  have hnone : f m = none := by
    cases hfm : f m with
    | none => rfl
    | some v => exact absurd ((h.1 m).2 (by rw [hfm]; rfl)) hm
  have hm' : ∀ x, (if x = m ∧ (f m).isNone then some t else f x)
      = if x = m then some t else f x := by
    intro x
    by_cases hx : x = m <;> simp [hx, hnone]
  have hf : (fun x => if x = m ∧ (f m).isNone then some t else f x)
      = fun x => if x = m then some t else f x := funext hm'
  rw [hf]
  have hold : ∀ x ∈ l, (if x = m then some t else f x) = f x := by
    intro x hx
    have : x ≠ m := fun e => hm (e ▸ hx)
    rw [if_neg this]
  refine ⟨?_, ?_, ?_⟩
  · intro x
    by_cases hx : x = m
    · simp [hx]
    · simp [hx, h.1 x]
  · rw [List.pairwise_append]
    refine ⟨?_, List.pairwise_singleton _ _, ?_⟩
    · refine List.Pairwise.imp_of_mem ?_ h.2.1
      rintro a b ha hb ⟨s, u, hs, hu, hlt⟩
      exact ⟨s, u, (hold a ha).trans hs, (hold b hb).trans hu, hlt⟩
    · intro a ha b hb
      rw [List.mem_singleton] at hb
      subst hb
      obtain ⟨s, hs⟩ := Option.isSome_iff_exists.1 ((h.1 a).1 ha)
      exact ⟨s, t, (hold a ha).trans hs, if_pos rfl, h.2.2 a s hs⟩
  · intro x s hx
    have hx : (if x = m then some t else f x) = some s := hx
    by_cases hxm : x = m
    · rw [if_pos hxm] at hx
      rw [← Option.some.inj hx]
      exact Nat.lt_succ_self t
    · rw [if_neg hxm] at hx
      exact Nat.lt_succ_of_lt (h.2.2 x s hx)

theorem inInsertionOrder_remove (l : List Id) (f : Id → Option Nat) (t : Nat) (m : Id)
    (h : InInsertionOrder l f t) :
    InInsertionOrder (l.filter (fun x => x ≠ m))
      (fun x => if x = m then none else f x) (t + 1) := by
  have hold : ∀ x ∈ l.filter (fun x => x ≠ m), (if x = m then none else f x) = f x := by
    intro x hx
    have : x ≠ m := by simpa using (List.mem_filter.1 hx).2
    rw [if_neg this]
  refine ⟨?_, ?_, ?_⟩
  · intro x
    by_cases hx : x = m
    · simp [hx]
    · simp [hx, h.1 x]
  · refine List.Pairwise.imp_of_mem ?_ (List.Pairwise.filter _ h.2.1)
    rintro a b ha hb ⟨s, u, hs, hu, hlt⟩
    exact ⟨s, u, (hold a ha).trans hs, (hold b hb).trans hu, hlt⟩
  · intro x s hx
    have hx : (if x = m then none else f x) = some s := hx
    by_cases hxm : x = m
    · rw [if_pos hxm] at hx
      exact absurd hx (by simp)
    · rw [if_neg hxm] at hx
      exact Nat.lt_succ_of_lt (h.2.2 x s hx)

/-- Running calls on a stored playlist keeps `mediaIds` in insertion order. -/
theorem runCalls_inInsertionOrder (p : Id) :
    ∀ (calls : List (PlaylistCall Id)) (t : Nat) (f : Id → Option Nat) (db : DB Id)
      (pl : Playlist Id), getPlaylistById p db = some pl →
      InInsertionOrder pl.mediaIds f t →
      ∃ out pl', runCalls p calls db = .ok out ∧ getPlaylistById p out = some pl'
        ∧ InInsertionOrder pl'.mediaIds (insertedAt t calls f) (t + calls.length) := by
  intro calls
  induction calls with
  | nil =>
    intro t f db pl hget hinv
    exact ⟨db, pl, rfl, hget, hinv⟩
  | cons c cs ih =>
    intro t f db pl hget hinv
    have hid := getPlaylistById_id p db pl hget
    have hlen : t + (c :: cs).length = (t + 1) + cs.length := by
      simp [List.length_cons]; omega
    rw [hlen]
    cases c with
    | add m =>
      by_cases hm : m ∈ pl.mediaIds
      · obtain ⟨out, pl', hrun, hget', hinv'⟩ :=
          ih (t + 1) _ db pl hget (inInsertionOrder_add_present _ f t m hinv hm)
        refine ⟨out, pl', ?_, hget', hinv'⟩
        simp only [runCalls, runCall, addMediaToPlaylist_present p m db pl hget hm]
        exact hrun
      · obtain ⟨out, pl', hrun, hget', hinv'⟩ :=
          ih (t + 1) _ _ _ (getPlaylistById_put p { pl with mediaIds := pl.mediaIds ++ [m] } db hid)
            (inInsertionOrder_add_fresh _ f t m hinv hm)
        refine ⟨out, pl', ?_, hget', hinv'⟩
        simp only [runCalls, runCall, addMediaToPlaylist_fresh p m db pl hget hm]
        exact hrun
    | remove m =>
      obtain ⟨out, pl', hrun, hget', hinv'⟩ :=
        ih (t + 1) _ _ _ (getPlaylistById_put p (pl.without m) db hid)
          (inInsertionOrder_remove _ f t m hinv)
      refine ⟨out, pl', ?_, hget', hinv'⟩
      simp only [runCalls, runCall, removeMediaFromPlaylist_of_get p m db pl hget]
      exact hrun

end OrderLemmas

section OrderClaims

variable {Id : Type} [LinearOrder Id]

/-- C4: when the stored playlist `p` does not list `m`, `addMediaToPlaylist p m`
stores the old `mediaIds` followed by `m`; and whatever sequence of
`addMediaToPlaylist` and `removeMediaFromPlaylist` calls is run on a playlist
just made by `createPlaylist`, the calls complete and the stored `mediaIds`
lists exactly the identifiers that are in the playlist, without repetition and
in the order of the adds that inserted them. -/
theorem mediaIds_order_preserved (p m : Id) (db : DB Id) (pl : Playlist Id)
    (hget : getPlaylistById p db = some pl) (hm : m ∉ pl.mediaIds) :
    (∃ pl' db', addMediaToPlaylist p m db = .ok (some pl', db')
        ∧ getPlaylistById p db' = some pl'
        ∧ pl'.mediaIds = pl.mediaIds ++ [m])
      ∧ ∀ (db0 : DB Id) (newId : Id) (now : Nat) (name : String)
          (calls : List (PlaylistCall Id)),
          ∃ out stored, runCalls newId calls (createPlaylist newId now name db0).2 = .ok out
            ∧ getPlaylistById newId out = some stored
            ∧ (∀ x, x ∈ stored.mediaIds ↔ (insertedAt 0 calls (fun _ => none) x).isSome)
            ∧ stored.mediaIds.Nodup
            ∧ stored.mediaIds.Pairwise (InsertedBefore (insertedAt 0 calls (fun _ => none))) := by
  constructor
  · exact ⟨_, _, addMediaToPlaylist_fresh p m db pl hget hm,
      getPlaylistById_put p _ db (getPlaylistById_id p db pl hget), rfl⟩
  · intro db0 newId now name calls
    have hfresh : InInsertionOrder ([] : List Id) (fun _ => none) 0 :=
      ⟨by simp, List.Pairwise.nil, by simp⟩
    obtain ⟨out, stored, hrun, hstored, hinv⟩ :=
      runCalls_inInsertionOrder newId calls 0 (fun _ => none)
        (createPlaylist newId now name db0).2 (createPlaylist newId now name db0).1
        (getPlaylistById_put newId _ db0 rfl) hfresh
    refine ⟨out, stored, hrun, hstored, hinv.1, ?_, hinv.2.1⟩
    refine List.Pairwise.imp ?_ hinv.2.1
    rintro a b ⟨s, u, hs, hu, hlt⟩ rfl
    rw [hs] at hu
    exact absurd (Option.some.inj hu) (Nat.ne_of_lt hlt)

end OrderClaims

end VideoWla

namespace VideoWla

/-- Witness of C4: `3` is appended to playlist `10` of `sampleDB`, and on a new
playlist `20` the calls add 1, add 2, add 1, remove 1, add 1 leave `[2, 1]`. -/
theorem mediaIds_order_preserved_witness :
    getPlaylistById 10 sampleDB
        = some { id := 10, name := "Road Trip", mediaIds := [1, 2], createdAt := 7 }
      ∧ 3 ∉ [1, 2]
      ∧ (∃ pl' db', addMediaToPlaylist 10 3 sampleDB = .ok (some pl', db')
          ∧ getPlaylistById 10 db' = some pl'
          ∧ pl'.mediaIds = [1, 2] ++ [3])
      ∧ (∃ out stored,
          runCalls 20 [.add 1, .add 2, .add 1, .remove 1, .add 1]
              (createPlaylist 20 30 "Road Trip" sampleDB).2 = .ok out
            ∧ getPlaylistById 20 out = some stored
            ∧ (∀ x, x ∈ stored.mediaIds ↔
                (insertedAt 0 [PlaylistCall.add 1, .add 2, .add 1, .remove 1, .add 1]
                  (fun _ => none) x).isSome)
            ∧ stored.mediaIds.Nodup
            ∧ stored.mediaIds.Pairwise (InsertedBefore
                (insertedAt 0 [PlaylistCall.add 1, .add 2, .add 1, .remove 1, .add 1]
                  (fun _ => none))))
      ∧ (match runCalls 20 [.add 1, .add 2, .add 1, .remove 1, .add 1]
              (createPlaylist 20 30 "Road Trip" sampleDB).2 with
          | .ok out => (getPlaylistById 20 out).map Playlist.mediaIds
          | .error _ => none) = some [2, 1] :=
  have h := mediaIds_order_preserved 10 3 sampleDB
    { id := 10, name := "Road Trip", mediaIds := [1, 2], createdAt := 7 }
    (by decide) (by decide)
  ⟨by decide, by decide, h.1,
    h.2 sampleDB 20 30 "Road Trip" [.add 1, .add 2, .add 1, .remove 1, .add 1], by decide⟩

end VideoWla

/-! ## Invariants of the service operations -/

namespace VideoWla

section ServiceLemmas

variable {Id : Type} [LinearOrder Id]

theorem Store.mem_put {α : Type} (key : α → Id) (r : α) (s : List α) (x : α)
    (h : x ∈ Store.put key r s) : x = r ∨ x ∈ s := by
  induction s with
  | nil => simpa [Store.put] using h
  | cons z zs ih =>
    unfold Store.put at h
    split_ifs at h
    · rcases List.mem_cons.1 h with rfl | h
      · exact Or.inl rfl
      · exact Or.inr h
    · rcases List.mem_cons.1 h with rfl | h
      · exact Or.inl rfl
      · exact Or.inr (List.mem_cons_of_mem _ h)
    · rcases List.mem_cons.1 h with rfl | h
      · exact Or.inr (List.mem_cons_self _ _)
      · rcases ih h with h' | h'
        · exact Or.inl h'
        · exact Or.inr (List.mem_cons_of_mem _ h')

theorem wf_map_without_all (id : Id) (ps : List (Playlist Id))
    (h : Store.WF Playlist.id ps) : Store.WF Playlist.id (ps.map (Playlist.without id)) := by
  have := wf_map_without id ps [] (by simpa using h)
  simpa using this

/-- The database a confirmed media deletion leaves on a well-formed store. -/
theorem runOp_deleteMedia (id : Id) (db : DB Id) (h : Store.WF Playlist.id db.playlists) :
    runOp (.deleteMedia id) db
      = .ok ⟨Store.delete MediaItem.id id db.media, db.playlists.map (Playlist.without id)⟩ := by
  obtain ⟨log, hrun, _, _⟩ := removeMediaFromAllPlaylists_spec id db h
  simp [runOp, deleteMediaById, hrun, deleteMedia]

/-- The outcomes of `addMediaToPlaylist`: nothing written, or the playlist
replaced by itself with the identifier appended. -/
theorem runOp_addMediaToPlaylist (p m : Id) (db : DB Id) :
    runOp (.addMediaToPlaylist p m) db = .ok db
      ∨ ∃ pl, pl ∈ db.playlists ∧ m ∉ pl.mediaIds
          ∧ runOp (.addMediaToPlaylist p m) db
            = .ok ⟨db.media,
                Store.put Playlist.id { pl with mediaIds := pl.mediaIds ++ [m] } db.playlists⟩ := by
  cases hget : getPlaylistById p db with
  | none =>
    left
    simp [runOp, addMediaToPlaylist_missing p m db hget]
  | some pl =>
    by_cases hm : m ∈ pl.mediaIds
    · left
      simp [runOp, addMediaToPlaylist_present p m db pl hget hm]
    · right
      refine ⟨pl, getPlaylistById_mem p db pl hget, hm, ?_⟩
      simp [runOp, addMediaToPlaylist_fresh p m db pl hget hm]

/-- The outcomes of `removeMediaFromPlaylist`: nothing written, or the playlist
replaced by itself with the identifier filtered out. -/
theorem runOp_removeMediaFromPlaylist (p m : Id) (db : DB Id) :
    runOp (.removeMediaFromPlaylist p m) db = .ok db
      ∨ ∃ pl, pl ∈ db.playlists
          ∧ runOp (.removeMediaFromPlaylist p m) db
            = .ok ⟨db.media, Store.put Playlist.id (pl.without m) db.playlists⟩ := by
  cases hget : getPlaylistById p db with
  | none =>
    left
    simp [runOp, removeMediaFromPlaylist, hget]
  | some pl =>
    right
    refine ⟨pl, getPlaylistById_mem p db pl hget, ?_⟩
    simp [runOp, removeMediaFromPlaylist_of_get p m db pl hget]

/-- Every operation completes on a well-formed database and leaves one. -/
theorem runOp_wf (op : ServiceOp Id) (db : DB Id) (h : db.WF) :
    ∃ db', runOp op db = .ok db' ∧ db'.WF := by
  cases op with
  | addMedia newId now file =>
    exact ⟨_, rfl, Store.wf_put MediaItem.id _ _ h.1, h.2⟩
  | deleteMedia id =>
    exact ⟨_, runOp_deleteMedia id db h.2, Store.wf_delete MediaItem.id id _ h.1,
      wf_map_without_all id _ h.2⟩
  | createPlaylist newId now name =>
    exact ⟨_, rfl, h.1, Store.wf_put Playlist.id _ _ h.2⟩
  | addMediaToPlaylist p m =>
    rcases runOp_addMediaToPlaylist p m db with hrun | ⟨pl, _, _, hrun⟩
    · exact ⟨db, hrun, h⟩
    · exact ⟨_, hrun, h.1, Store.wf_put Playlist.id _ _ h.2⟩
  | removeMediaFromPlaylist p m =>
    rcases runOp_removeMediaFromPlaylist p m db with hrun | ⟨pl, _, hrun⟩
    · exact ⟨db, hrun, h⟩
    · exact ⟨_, hrun, h.1, Store.wf_put Playlist.id _ _ h.2⟩
  | deletePlaylist id =>
    exact ⟨_, rfl, h.1, Store.wf_delete Playlist.id id _ h.2⟩

/-- One operation keeps every `mediaIds` free of repetitions. -/
theorem runOp_nodup (op : ServiceOp Id) (db db' : DB Id) (h : db.WF)
    (hnd : ∀ p ∈ db.playlists, p.mediaIds.Nodup) (hrun : runOp op db = .ok db') :
    ∀ p ∈ db'.playlists, p.mediaIds.Nodup := by
  have hput : ∀ (r : Playlist Id), r.mediaIds.Nodup →
      ∀ q ∈ Store.put Playlist.id r db.playlists, q.mediaIds.Nodup := by
    intro r hr q hq
    rcases Store.mem_put Playlist.id r db.playlists q hq with rfl | hq
    · exact hr
    · exact hnd q hq
  cases op with
  | addMedia newId now file =>
    cases hrun
    exact hnd
  | deleteMedia id =>
    rw [runOp_deleteMedia id db h.2] at hrun
    cases hrun
    intro q hq
    obtain ⟨p, hp, rfl⟩ := List.mem_map.1 hq
    exact (hnd p hp).filter _
  | createPlaylist newId now name =>
    cases hrun
    exact hput _ List.nodup_nil
  | addMediaToPlaylist p m =>
    rcases runOp_addMediaToPlaylist p m db with hrun' | ⟨pl, hpl, hm, hrun'⟩
    · rw [hrun'] at hrun
      cases hrun
      exact hnd
    · rw [hrun'] at hrun
      cases hrun
      apply hput
      show (pl.mediaIds ++ [m]).Nodup
      rw [List.nodup_append]
      refine ⟨hnd pl hpl, List.nodup_singleton m, ?_⟩
      intro a ha hb
      rw [List.mem_singleton] at hb
      exact hm (hb ▸ ha)
  | removeMediaFromPlaylist p m =>
    rcases runOp_removeMediaFromPlaylist p m db with hrun' | ⟨pl, hpl, hrun'⟩
    · rw [hrun'] at hrun
      cases hrun
      exact hnd
    · rw [hrun'] at hrun
      cases hrun
      apply hput
      exact (hnd pl hpl).filter _
  | deletePlaylist id =>
    cases hrun
    intro q hq
    exact hnd q (List.mem_of_mem_filter hq)

end ServiceLemmas

end VideoWla

namespace VideoWla

section IntegrityLemmas

variable {Id : Type} [LinearOrder Id]

theorem hasMedia_iff_get (db : DB Id) (m : Id) :
    db.HasMedia m ↔ getMediaById m db ≠ none := by
  unfold DB.HasMedia getMediaById
  rw [Ne, Store.get_eq_none_iff]
  push_neg
  rfl

theorem hasMedia_addMedia (newId : Id) (now : Nat) (file : File) (db : DB Id) (m : Id)
    (h : db.HasMedia m) : (addMedia newId now file db).2.HasMedia m := by
  rw [hasMedia_iff_get] at h ⊢
  by_cases hm : m = newId
  · subst hm
    rw [getMediaById_addMedia]
    simp
  · have := Store.get_put_of_ne MediaItem.id
      (MediaItem.mk newId (deriveName file.name) (some file)
        (if "video/".data.isPrefixOf file.type.data then MediaType.video else MediaType.audio)
        file.type now) m hm db.media
    unfold getMediaById addMedia at *
    simp only
    rw [this]
    exact h

/-- A media deletion on a database without dangling references leaves none. -/
theorem noDangling_deleteMedia (id : Id) (db : DB Id) (hnd : db.NoDangling) :
    (⟨Store.delete MediaItem.id id db.media, db.playlists.map (Playlist.without id)⟩ :
      DB Id).NoDangling := by
  rintro m ⟨q, hq, hm⟩
  obtain ⟨p, hp, rfl⟩ := List.mem_map.1 hq
  have hmem := (Playlist.mem_without id m p).1 hm
  obtain ⟨item, hitem, hid⟩ := hnd m ⟨p, hp, hmem.1⟩
  refine ⟨item, ?_, hid⟩
  simp [Store.delete, hitem, hid, hmem.2]

/-- Replacing or inserting a playlist whose identifiers are all stored media
keeps the database free of dangling references. -/
theorem noDangling_put (db : DB Id) (r : Playlist Id) (hnd : db.NoDangling)
    (hr : ∀ m ∈ r.mediaIds, db.HasMedia m) :
    (⟨db.media, Store.put Playlist.id r db.playlists⟩ : DB Id).NoDangling := by
  rintro m ⟨q, hq, hm⟩
  rcases Store.mem_put Playlist.id r db.playlists q hq with rfl | hq
  · exact hr m hm
  · exact hnd m ⟨q, hq, hm⟩

/-- One operation that names only stored media keeps the database free of
dangling references. -/
theorem runOp_noDangling (op : ServiceOp Id) (db db' : DB Id) (h : db.WF)
    (hnd : db.NoDangling) (hg : namesStoredMedia db op = true)
    (hrun : runOp op db = .ok db') : db'.NoDangling := by
  cases op with
  | addMedia newId now file =>
    cases hrun
    rintro m ⟨q, hq, hm⟩
    exact hasMedia_addMedia newId now file db m (hnd m ⟨q, hq, hm⟩)
  | deleteMedia id =>
    rw [runOp_deleteMedia id db h.2] at hrun
    cases hrun
    exact noDangling_deleteMedia id db hnd
  | createPlaylist newId now name =>
    cases hrun
    exact noDangling_put db _ hnd (by intro m hm; cases hm)
  | addMediaToPlaylist p m =>
    have hstored : db.HasMedia m := by
      rw [hasMedia_iff_get]
      intro hnone
      simp [namesStoredMedia, hnone] at hg
    rcases runOp_addMediaToPlaylist p m db with hrun' | ⟨pl, hpl, _, hrun'⟩
    · rw [hrun'] at hrun
      cases hrun
      exact hnd
    · rw [hrun'] at hrun
      cases hrun
      apply noDangling_put db _ hnd
      intro x hx
      rcases List.mem_append.1 hx with hx | hx
      · exact hnd x ⟨pl, hpl, hx⟩
      · rw [List.mem_singleton] at hx
        exact hx ▸ hstored
  | removeMediaFromPlaylist p m =>
    rcases runOp_removeMediaFromPlaylist p m db with hrun' | ⟨pl, hpl, hrun'⟩
    · rw [hrun'] at hrun
      cases hrun
      exact hnd
    · rw [hrun'] at hrun
      cases hrun
      apply noDangling_put db _ hnd
      intro x hx
      exact hnd x ⟨pl, hpl, ((Playlist.mem_without m x pl).1 hx).1⟩
  | deletePlaylist id =>
    cases hrun
    rintro m ⟨q, hq, hm⟩
    exact hnd m ⟨q, List.mem_of_mem_filter hq, hm⟩

theorem runOps_nodup (ops : List (ServiceOp Id)) :
    ∀ db : DB Id, db.WF → (∀ p ∈ db.playlists, p.mediaIds.Nodup) →
      ∃ out, runOps ops db = .ok out ∧ out.WF ∧ ∀ p ∈ out.playlists, p.mediaIds.Nodup := by
  induction ops with
  | nil =>
    intro db h hnd
    exact ⟨db, rfl, h, hnd⟩
  | cons op ops ih =>
    intro db h hnd
    obtain ⟨db', hrun, hwf⟩ := runOp_wf op db h
    obtain ⟨out, hout, hres⟩ := ih db' hwf (runOp_nodup op db db' h hnd hrun)
    exact ⟨out, by simp only [runOps, hrun]; exact hout, hres⟩

theorem runOps_noDangling (ops : List (ServiceOp Id)) :
    ∀ db : DB Id, db.WF → db.NoDangling → runsOnStoredMedia ops db = true →
      ∃ out, runOps ops db = .ok out ∧ out.WF ∧ out.NoDangling := by
  induction ops with
  | nil =>
    intro db h hnd _
    exact ⟨db, rfl, h, hnd⟩
  | cons op ops ih =>
    intro db h hnd hg
    obtain ⟨db', hrun, hwf⟩ := runOp_wf op db h
    simp only [runsOnStoredMedia, hrun, Bool.and_eq_true] at hg
    obtain ⟨out, hout, hres⟩ := ih db' hwf (runOp_noDangling op db db' h hnd hg.1 hrun) hg.2
    exact ⟨out, by simp only [runOps, hrun]; exact hout, hres⟩

theorem emptyDB_wf : (emptyDB : DB Id).WF :=
  ⟨List.Pairwise.nil, List.Pairwise.nil⟩

end IntegrityLemmas

end VideoWla

/-! ## Claims about reachable states, frames and listings -/

namespace VideoWla

section ServiceClaims

variable {Id : Type} [LinearOrder Id]

/-- C11: every sequence of `addMedia`, media deletion, `createPlaylist`,
`addMediaToPlaylist`, `removeMediaFromPlaylist` and `deletePlaylist` run from
the empty store completes, and in the store it reaches no playlist's `mediaIds`
lists an identifier twice, whether read from the playlists store or through
`getAllPlaylists`. -/
theorem reachable_mediaIds_nodup (ops : List (ServiceOp Id)) :
    ∃ db : DB Id, runOps ops emptyDB = .ok db
      ∧ (∀ p ∈ db.playlists, p.mediaIds.Nodup)
      ∧ ∀ p ∈ getAllPlaylists db, p.mediaIds.Nodup := by
  obtain ⟨out, hrun, _, hnd⟩ :=
    runOps_nodup ops (emptyDB : DB Id) emptyDB_wf (by intro p hp; cases hp)
  exact ⟨out, hrun, hnd, hnd⟩

/-- C12: on a well-formed database a confirmed media deletion completes; the
playlists afterwards correspond one to one, in order, to the playlists before,
each with the same `id`, `name` and `createdAt` and with `mediaIds` equal to the
old sequence with `id` filtered out; and the media store is the old one without
the records whose identifier is `id`. -/
theorem deleteMediaById_frame (id : Id) (db : DB Id) (h : db.WF) :
    ∃ out log, deleteMediaById true id db = .ok (out, log)
      ∧ out.playlists.length = db.playlists.length
      ∧ List.Forall₂ (fun q p => q.id = p.id ∧ q.name = p.name ∧ q.createdAt = p.createdAt
          ∧ q.mediaIds = p.mediaIds.filter (fun x => x ≠ id)) out.playlists db.playlists
      ∧ out.media = db.media.filter (fun m => m.id ≠ id)
      ∧ (∀ m ∈ db.media, m.id ≠ id → m ∈ out.media)
      ∧ (∀ m ∈ out.media, m ∈ db.media) := by
  obtain ⟨log, hrun, _, _⟩ := removeMediaFromAllPlaylists_spec id db h.2
  have hmedia : Store.delete MediaItem.id id db.media
      = db.media.filter (fun m => m.id ≠ id) := by
    unfold Store.delete
    apply List.filter_congr
    intro x _
    simp
  refine ⟨⟨Store.delete MediaItem.id id db.media, db.playlists.map (Playlist.without id)⟩,
    log ++ [⟨Store.delete MediaItem.id id db.media, db.playlists.map (Playlist.without id)⟩],
    by simp [deleteMediaById, hrun, deleteMedia], by simp, ?_, hmedia, ?_, ?_⟩
  · rw [List.forall₂_map_left_iff, List.forall₂_same]
    intro p _
    exact ⟨rfl, rfl, rfl, rfl⟩
  · intro m hm hne
    show m ∈ Store.delete MediaItem.id id db.media
    rw [hmedia]
    exact List.mem_filter.2 ⟨hm, by simpa using hne⟩
  · intro m hm
    exact List.mem_of_mem_filter hm

/-- Witness of C12: media item `1` deleted from `sampleDB`; the three playlists
then list `[2]` each and only media item `2` is left. -/
theorem deleteMediaById_frame_witness :
    sampleDB.WF
      ∧ (∃ out log, deleteMediaById true 1 sampleDB = .ok (out, log)
        ∧ out.playlists.length = sampleDB.playlists.length
        ∧ List.Forall₂ (fun q p => q.id = p.id ∧ q.name = p.name ∧ q.createdAt = p.createdAt
            ∧ q.mediaIds = p.mediaIds.filter (fun x => x ≠ 1)) out.playlists sampleDB.playlists
        ∧ out.media = sampleDB.media.filter (fun m => m.id ≠ 1)
        ∧ (∀ m ∈ sampleDB.media, m.id ≠ 1 → m ∈ out.media)
        ∧ (∀ m ∈ out.media, m ∈ sampleDB.media))
      ∧ (match deleteMediaById true 1 sampleDB with
          | .ok (out, _) => some (out.playlists.map Playlist.mediaIds, out.media.map MediaItem.id)
          | .error _ => none) = some ([[2], [2], [2]], [2]) :=
  ⟨by decide, deleteMediaById_frame 1 sampleDB (by decide), by decide⟩

/-- C13: `getAllMedia` returns one row per stored media record, in store order,
each row carrying the record's `id`, `name`, `type`, `mimeType` and `createdAt`
(a row has no blob field); the value `addMedia` returns has no blob, while the
record it stores is that value with the file as blob. -/
theorem getAllMedia_metadata_only (db : DB Id) (newId : Id) (now : Nat) (f : File) :
    (getAllMedia db).length = db.media.length
      ∧ List.Forall₂ (fun row m => row.id = m.id ∧ row.name = m.name ∧ row.type = m.type
          ∧ row.mimeType = m.mimeType ∧ row.createdAt = m.createdAt) (getAllMedia db) db.media
      ∧ (addMedia newId now f db).1.blob = none
      ∧ getMediaById newId (addMedia newId now f db).2
          = some { (addMedia newId now f db).1 with blob := some f }
      ∧ (getAllMedia (addMedia newId now f db).2).length
          = (addMedia newId now f db).2.media.length := by
  refine ⟨by simp [getAllMedia], ?_, rfl, getMediaById_addMedia newId now f db,
    by simp [getAllMedia]⟩
  unfold getAllMedia
  rw [List.forall₂_map_left_iff, List.forall₂_same]
  intro m _
  exact ⟨rfl, rfl, rfl, rfl, rfl⟩

end ServiceClaims

end VideoWla

namespace VideoWla

section DisplayClaims

variable {Id : Type} [LinearOrder Id]

/-- C14, as amended: with the empty search query and `currentPlaylistId` the
identifier of a playlist of `allPlaylists`, `getCurrentMediaList` returns the
items of `allMedia` whose identifier is in the playlist's `mediaIds`, in the
order in which they stand in `allMedia`. -/
theorem getCurrentMediaList_order (toLowerCase : String → String)
    (hlow : toLowerCase "" = "") (allMedia : List (MediaRow Id))
    (allPlaylists : List (Playlist Id)) (playlist : Playlist Id)
    (hwf : Store.WF Playlist.id allPlaylists) (hmem : playlist ∈ allPlaylists) :
    getCurrentMediaList toLowerCase "" allMedia allPlaylists (some playlist.id)
        = allMedia.filter (fun m => decide (m.id ∈ playlist.mediaIds))
      ∧ (∀ m, m ∈ getCurrentMediaList toLowerCase "" allMedia allPlaylists (some playlist.id)
          ↔ m ∈ allMedia ∧ m.id ∈ playlist.mediaIds)
      ∧ (getCurrentMediaList toLowerCase "" allMedia allPlaylists
          (some playlist.id)).Sublist allMedia := by
  obtain ⟨pre, post, hsplit⟩ := List.append_of_mem hmem
  have hfind : allPlaylists.find? (fun p => decide (p.id = playlist.id)) = some playlist := by
    have := Store.get_split Playlist.id pre playlist post (hsplit ▸ hwf)
    rw [hsplit]
    exact this
  have hblank : jsTrim "" = "" := by decide
  have hres : getCurrentMediaList toLowerCase "" allMedia allPlaylists (some playlist.id)
      = allMedia.filter (fun m => decide (m.id ∈ playlist.mediaIds)) := by
    simp only [getCurrentMediaList, hfind, applySearchFilter, hblank, hlow, if_true]
    apply List.filter_congr
    intro m _
    simp
  refine ⟨hres, ?_, ?_⟩
  · intro m
    rw [hres, List.mem_filter]
    simp
  · rw [hres]
    exact List.filter_sublist _

end DisplayClaims

/-- Witness of C14: playlist `12` of `sampleDB` lists `[2, 1]`; the rows come out
in the order of the media list. -/
theorem getCurrentMediaList_order_witness :
    asciiToLowerCase "" = ""
      ∧ Store.WF Playlist.id sampleDB.playlists
      ∧ ({ id := 12, name := "Loud", mediaIds := [2, 1], createdAt := 9 } : Playlist Nat)
          ∈ sampleDB.playlists
      ∧ (getCurrentMediaList asciiToLowerCase "" (getAllMedia sampleDB) sampleDB.playlists
            (some 12)
          = (getAllMedia sampleDB).filter (fun m => decide (m.id ∈ [2, 1]))
        ∧ (∀ m, m ∈ getCurrentMediaList asciiToLowerCase "" (getAllMedia sampleDB)
              sampleDB.playlists (some 12)
            ↔ m ∈ getAllMedia sampleDB ∧ m.id ∈ [2, 1])
        ∧ (getCurrentMediaList asciiToLowerCase "" (getAllMedia sampleDB) sampleDB.playlists
            (some 12)).Sublist (getAllMedia sampleDB)) :=
  ⟨by decide, by decide, by decide,
    getCurrentMediaList_order asciiToLowerCase (by decide) (getAllMedia sampleDB)
      sampleDB.playlists { id := 12, name := "Loud", mediaIds := [2, 1], createdAt := 9 }
      (by decide) (by decide)⟩

/-- C14 as stated fails: for playlist `12` of `sampleDB`, whose `mediaIds` is
`[2, 1]`, the computed list has the identifiers `[1, 2]`, while the rows taken
in the order of `mediaIds` have the identifiers `[2, 1]`. -/
theorem getCurrentMediaList_order_counterexample :
    (getCurrentMediaList asciiToLowerCase "" (getAllMedia sampleDB) sampleDB.playlists
        (some 12)).map MediaRow.id = [1, 2]
      ∧ (inMediaIdsOrder (getAllMedia sampleDB) [2, 1]).map MediaRow.id = [2, 1]
      ∧ getCurrentMediaList asciiToLowerCase "" (getAllMedia sampleDB) sampleDB.playlists
          (some 12) ≠ inMediaIdsOrder (getAllMedia sampleDB) [2, 1] := by
  decide

section IntegrityClaims

variable {Id : Type} [LinearOrder Id]

/-- C15, as amended: a sequence of service operations run from the empty store
in which every `addMediaToPlaylist` names a media record stored at the moment of
the call completes, and in the store it reaches every identifier in every
playlist's `mediaIds`, read from the playlists store or through
`getAllPlaylists`, is the identifier of a stored media record. -/
theorem reachable_noDangling (ops : List (ServiceOp Id))
    (h : runsOnStoredMedia ops (emptyDB : DB Id) = true) :
    ∃ db : DB Id, runOps ops emptyDB = .ok db
      ∧ (∀ p ∈ db.playlists, ∀ m ∈ p.mediaIds, ∃ item ∈ db.media, item.id = m)
      ∧ ∀ p ∈ getAllPlaylists db, ∀ m ∈ p.mediaIds, ∃ item ∈ db.media, item.id = m := by
  obtain ⟨out, hrun, _, hnd⟩ :=
    runOps_noDangling ops (emptyDB : DB Id) emptyDB_wf
      (by rintro m ⟨p, hp, _⟩; cases hp) h
  exact ⟨out, hrun, fun p hp m hm => hnd m ⟨p, hp, hm⟩, fun p hp m hm => hnd m ⟨p, hp, hm⟩⟩

end IntegrityClaims

/-- Witness of C15: two uploads, a playlist holding both, then the first upload
deleted. -/
theorem reachable_noDangling_witness :
    runsOnStoredMedia
        [ServiceOp.addMedia 1 5 ⟨"a.mp3", "audio/mpeg", [1, 2]⟩,
          .addMedia 2 6 ⟨"b.mp4", "video/mp4", [3]⟩,
          .createPlaylist 10 7 "Road Trip",
          .addMediaToPlaylist 10 1, .addMediaToPlaylist 10 2, .deleteMedia 1]
        (emptyDB : DB Nat) = true
      ∧ ∃ db : DB Nat,
          runOps [ServiceOp.addMedia 1 5 ⟨"a.mp3", "audio/mpeg", [1, 2]⟩,
              .addMedia 2 6 ⟨"b.mp4", "video/mp4", [3]⟩,
              .createPlaylist 10 7 "Road Trip",
              .addMediaToPlaylist 10 1, .addMediaToPlaylist 10 2, .deleteMedia 1]
            emptyDB = .ok db
          ∧ (∀ p ∈ db.playlists, ∀ m ∈ p.mediaIds, ∃ item ∈ db.media, item.id = m)
          ∧ ∀ p ∈ getAllPlaylists db, ∀ m ∈ p.mediaIds, ∃ item ∈ db.media, item.id = m :=
  ⟨by decide, reachable_noDangling _ (by decide)⟩

/-- C15 as stated fails: creating playlist `10` and adding the identifier `9`
to it, with no media stored, reaches a store whose playlist lists `9` although
no media record has that identifier. -/
theorem reachable_dangling_counterexample :
    runOps [ServiceOp.createPlaylist 10 7 "Road Trip", .addMediaToPlaylist 10 9]
        (emptyDB : DB Nat) = .ok danglingDB
      ∧ ¬ (∀ p ∈ getAllPlaylists danglingDB, ∀ m ∈ p.mediaIds,
            ∃ item ∈ danglingDB.media, item.id = m) := by
  refine ⟨rfl, ?_⟩
  intro hall
  obtain ⟨item, hitem, _⟩ := hall (Playlist.mk 10 "Road Trip" [9] 7)
    (by simp [getAllPlaylists, danglingDB]) 9 (by simp)
  simp [danglingDB] at hitem

end VideoWla
